import Mathlib

/-!
Shallow embedding of the swagger-scanner documentation pipeline
(src/swagger_scanner/parser.py, md_generator.py, ts_generator.py, main.py).

Python data reaching the core is JSON: dicts, lists, strings, ints, booleans
and None, modelled by `JValue` (dicts as insertion-ordered association lists
with unique keys, as CPython guarantees; integers only, no claim involves
floats).  Python exceptions raised by the core on ill-typed values
(TypeError, AttributeError) are modelled by `Except PyErr`.  Recursive
functions take an explicit fuel argument so that every definition is
structural and kernel-computable; the fuel of a wrapper is the sizeOf of the
traversed value, which strictly bounds the recursion depth, and running out
of fuel yields the distinguished error `PyErr.fuelOut`, so any evaluation
that produces a different result is unaffected by the fuel bound.

CPythons `set.pop` removes an unspecified element (its order depends on the
per-process string hash seed); the dependency resolvers worklist is
therefore parameterised by a `pick` function, and `validPick` states exactly
that `pick` returns some member of every nonempty frontier.
-/

deriving instance DecidableEq for Except

set_option maxRecDepth 20000

namespace SwaggerScanner

/-- JSON value as held by the Python runtime: None, bool, int, str, list, dict. -/
inductive JValue where
  | null : JValue
  | bool : Bool → JValue
  | num : Int → JValue
  | str : String → JValue
  | arr : List JValue → JValue
  | obj : List (String × JValue) → JValue
  deriving Repr

/-- Python exceptions the embedded core can raise, plus the fuel marker. -/
inductive PyErr where
  | typeError
  | attributeError
  | keyError
  | fuelOut
  deriving DecidableEq, Repr

/-- First-match association-list lookup: Python dict indexing (keys unique). -/
def lookupJ {α : Type} : List (String × α) → String → Option α
  | [], _ => none
  | (k, v) :: rest, key => if k = key then some v else lookupJ rest key

/-- Lookup with a default: Python dict.get on a known dict. -/
def lookupD {α : Type} (l : List (String × α)) (key : String) (d : α) : α :=
  (lookupJ l key).getD d

/-- Python dict.get(k, default): AttributeError when the receiver is not a dict. -/
def pyGetM (v : JValue) (key : String) (d : JValue) : Except PyErr JValue :=
  match v with
  | .obj fields => .ok (lookupD fields key d)
  | _ => .error .attributeError

/-- Python truthiness of a JSON value. -/
def pyTruthy : JValue → Bool
  | .null => false
  | .bool b => b
  | .num n => n != 0
  | .str s => s != ""
  | .arr xs => !xs.isEmpty
  | .obj fs => !fs.isEmpty

/-- Python equality test between a JSON value and a string literal. -/
def jEqStr (v : JValue) (s : String) : Bool :=
  match v with
  | .str t => t = s
  | _ => false

/-- Python iteration over a value: lists yield elements, strings yield
one-character strings, dicts yield their keys; other values raise TypeError. -/
def pyIterVals : JValue → Except PyErr (List JValue)
  | .arr xs => .ok xs
  | .str s => .ok (s.data.map (fun c => .str (String.mk [c])))
  | .obj fs => .ok (fs.map (fun p => .str p.1))
  | _ => .error .typeError

/-- Hashable scalar values as Python set members.  CPython identifies True
with 1 and False with 0 under both == and hash, so booleans are canonicalized
to their integer values; None is an element of its own; lists and dicts are
unhashable. -/
inductive PyKey where
  | none : PyKey
  | int : Int → PyKey
  | str : String → PyKey
  deriving DecidableEq

/-- Hash key of a scalar JSON value; TypeError (unhashable) for lists and
dicts. -/
def pyKeyOf : JValue → Except PyErr PyKey
  | .null => .ok .none
  | .bool b => .ok (.int (if b then 1 else 0))
  | .num n => .ok (.int n)
  | .str s => .ok (.str s)
  | .arr _ => .error .typeError
  | .obj _ => .error .typeError

/-- Total variant of pyKeyOf on hashable scalars (statement-side view). -/
def pyKeyScalar : JValue → Option PyKey
  | .null => some .none
  | .bool b => some (.int (if b then 1 else 0))
  | .num n => some (.int n)
  | .str s => some (.str s)
  | _ => none

/-- Python set(x): the set of hash keys of the iterated values; TypeError
when the argument is not iterable or a member is unhashable. -/
def pySet (v : JValue) : Except PyErr (Finset PyKey) := do
  let vs ← pyIterVals v
  let ks ← vs.mapM pyKeyOf
  .ok ks.toFinset

/-- Python dict.keys() in iteration order: AttributeError when not a dict. -/
def objKeys : JValue → Except PyErr (List String)
  | .obj fs => .ok (fs.map Prod.fst)
  | _ => .error .attributeError

/-- Python str.replace for a one-character pattern (the only patterns the
source uses), replacing every occurrence. -/
def charReplace (s : String) (c : Char) (rep : String) : String :=
  String.mk (s.data.flatMap (fun d => if d = c then rep.data else [d]))

/-- Python str.split for a one-character separator (never returns an empty list). -/
def splitChar (s : String) (c : Char) : List String :=
  (s.data.splitOn c).map String.mk

/-- Python s[n:]. -/
def strDrop (s : String) (n : Nat) : String :=
  String.mk (s.data.drop n)

/-- Python str.startswith. -/
def strStarts (s : String) (p : String) : Bool :=
  p.data.isPrefixOf s.data

/-- Boolean substring test on character lists (Python `sub in s`). -/
def infixB (pat : List Char) : List Char → Bool
  | [] => pat.isEmpty
  | c :: rest => pat.isPrefixOf (c :: rest) || infixB pat rest

/-- Python `sub in s` for strings. -/
def strContains (s : String) (sub : String) : Bool :=
  infixB sub.data s.data

/-- Python str.strip(chars): drop the given characters from both ends. -/
def stripChars (s : String) (cs : List Char) : String :=
  String.mk (((s.data.dropWhile (fun c => cs.contains c)).reverse.dropWhile
    (fun c => cs.contains c)).reverse)

/-- Python str.lower (ASCII, which is all the source feeds it). -/
def pyLower (s : String) : String :=
  String.mk (s.data.map Char.toLower)

/-- Python str.upper (ASCII). -/
def pyUpper (s : String) : String :=
  String.mk (s.data.map Char.toUpper)

/-- One step of Python str.title: uppercase a letter after a non-letter,
lowercase the rest. -/
def titleGo : Bool → List Char → List Char
  | _, [] => []
  | prevAlpha, c :: rest =>
    if c.isAlpha then
      (if prevAlpha then c.toLower else c.toUpper) :: titleGo true rest
    else
      c :: titleGo false rest

/-- Python str.title. -/
def pyTitle (s : String) : String :=
  String.mk (titleGo false s.data)

/-- Code-point lexicographic order on character lists, as Python compares
strings (true when the first list is less than or equal to the second). -/
def lexLe : List Char → List Char → Bool
  | [], _ => true
  | _ :: _, [] => false
  | a :: as, b :: bs =>
    if a.toNat < b.toNat then true
    else if b.toNat < a.toNat then false
    else lexLe as bs

/-- Python string comparison (less or equal). -/
def strLeB (a b : String) : Bool :=
  lexLe a.data b.data

/-- Python sorted() on a list of strings. -/
def sortStrings (l : List String) : List String :=
  l.insertionSort (fun a b => strLeB a b = true)

/-- Append the elements of the second list not already present: set-insertion
semantics on duplicate-free lists (used to model Python set updates while
keeping the discovery order observable by the pop model). -/
def dedupAppend (l : List String) (news : List String) : List String :=
  news.foldl (fun acc x => if x ∈ acc then acc else acc ++ [x]) l

/-- Python str() of a JSON scalar (lists/dicts handled by pyStrF below). -/
def pyStrScalar : JValue → Option String
  | .null => some "None"
  | .bool b => some (if b then "True" else "False")
  | .num n => some (toString n)
  | .str s => some s
  | _ => none

/-- Python repr of a string for container rendering; the source only ever
renders scalar constraint/enum payloads, so quote-escaping is not modelled. -/
def pyReprStr (s : String) : String :=
  "'" ++ s ++ "'"

/-- Fuelled Python repr of a JSON value (str() of lists/dicts uses repr of
the elements). -/
def pyReprF : Nat → JValue → String
  | 0, _ => ""
  | _ + 1, .null => "None"
  | _ + 1, .bool b => if b then "True" else "False"
  | _ + 1, .num n => toString n
  | _ + 1, .str s => pyReprStr s
  | f + 1, .arr xs => "[" ++ String.intercalate ", " (xs.map (pyReprF f)) ++ "]"
  | f + 1, .obj fs =>
    "\x7b" ++ String.intercalate ", "
      (fs.map (fun p => pyReprStr p.1 ++ ": " ++ pyReprF f p.2)) ++ "\x7d"

mutual

/-- Structural size of a JSON value; used as the fuel of the fuelled
traversals, which strictly bounds their recursion depth. -/
def jsize : JValue → Nat
  | .null => 1
  | .bool _ => 1
  | .num _ => 1
  | .str _ => 1
  | .arr xs => 1 + jsizeL xs
  | .obj fs => 1 + jsizeP fs

/-- Size of a list of JSON values. -/
def jsizeL : List JValue → Nat
  | [] => 0
  | v :: vs => jsize v + jsizeL vs

/-- Size of a list of JSON object fields. -/
def jsizeP : List (String × JValue) → Nat
  | [] => 0
  | (_, v) :: ps => jsize v + jsizeP ps

end

/-- Python str() of a JSON value. -/
def pyStr (v : JValue) : String :=
  match pyStrScalar v with
  | some s => s
  | none => pyReprF (jsize v) v


/-- parser.SchemaProperty: a property in a schema. -/
structure SchemaProperty where
  name : String
  type_str : String
  required : Bool
  description : String
  constraints : List String
  deriving DecidableEq, Repr

/-- parser.Schema: an OpenAPI schema/component. -/
structure Schema where
  name : String
  properties : List SchemaProperty
  deriving DecidableEq, Repr

/-- parser.Endpoint: an API endpoint. -/
structure Endpoint where
  method : String
  path : String
  operation_id : String
  summary : String
  tags : List String
  request_body : Option String
  response : Option String
  parameters : Option String
  deriving DecidableEq, Repr

/-- parser.sanitize_name: replace hyphens and spaces with underscores. -/
def sanitize_name (name : String) : String :=
  charReplace (charReplace name '-' "_") ' ' "_"

/-- parser.get_ref_name: sanitized last path segment of a $ref pointer. -/
def get_ref_name (ref : String) : String :=
  sanitize_name ((splitChar ref '/').getLastD "")

/-- parser.resolve_ref: walk the document along a local pointer; a pointer not
starting with the local marker resolves to the empty dict, and each step uses
dict.get with an empty-dict default (AttributeError when a step lands on a
non-dict, as in Python). -/
def resolve_ref (openapi : JValue) (ref : String) : Except PyErr JValue :=
  if strStarts ref "#/" then
    (splitChar (strDrop ref 2) '/').foldlM (fun acc part => pyGetM acc part (.obj [])) openapi
  else
    .ok (.obj [])

/-- Loop of parser.find_matching_schema over the sorted component names:
returns the first name whose property/required sets match (both required sets
nonempty and equal plus equal property sets, or one required set empty and
equal property sets). -/
def fmsLoop (sdefs : List (String × JValue)) (iprops : Finset String)
    (ireq : Finset PyKey) :
    List String → Except PyErr (Option String)
  | [] => .ok none
  | n :: rest => do
    let d := lookupD sdefs n .null
    let spv ← pyGetM d "properties" (.obj [])
    let skeys ← objKeys spv
    let srv ← pyGetM d "required" (.arr [])
    let sreq ← pySet srv
    if ireq ≠ ∅ ∧ sreq ≠ ∅ then
      if ireq = sreq ∧ iprops = skeys.toFinset then .ok (some n)
      else fmsLoop sdefs iprops ireq rest
    else if iprops = skeys.toFinset then .ok (some n)
    else fmsLoop sdefs iprops ireq rest

/-- parser.find_matching_schema: try to find a component schema whose
property/required sets match those of an inline object schema, scanning the
component names in sorted order; None for a non-dict argument or when the
inline property set is empty. -/
def find_matching_schema (inline_schema openapi : JValue) : Except PyErr (Option String) :=
  match inline_schema with
  | .obj ifields => do
    let pv := lookupD ifields "properties" (.obj [])
    let ikeys ← objKeys pv
    let ireq ← pySet (lookupD ifields "required" (.arr []))
    if ikeys.toFinset = ∅ then .ok none
    else do
      let comp ← pyGetM openapi "components" (.obj [])
      let sdefsv ← pyGetM comp "schemas" (.obj [])
      match sdefsv with
      | .obj sdefs => fmsLoop sdefs ikeys.toFinset ireq (sortStrings (sdefs.map Prod.fst))
      | _ => .error .attributeError
  | _ => .ok none

/-- Guard of the array-items fast path in parser.openapi_type_to_ts:
isinstance(items, dict) and items.get("type") == "object" and
items.get("properties") is truthy. -/
def isInlineObjectNode : JValue → Bool
  | .obj fs => jEqStr (lookupD fs "type" .null) "object" && pyTruthy (lookupD fs "properties" .null)
  | _ => false

/-- Null-member test of the anyOf branch: isinstance(s, dict) and
s.get("type") == "null". -/
def isNullMember : JValue → Bool
  | .obj fs => jEqStr (lookupD fs "type" .null) "null"
  | _ => false

/-- Fuelled body of parser.openapi_type_to_ts.  The fuel strictly exceeds the
recursion depth whenever it is at least the structural size of the schema
node, which is what the wrapper passes; exhaustion yields the distinguished
PyErr.fuelOut, never a value a real run could produce. -/
def openapi_type_to_tsF : Nat → JValue → JValue → String → Except PyErr String
  | 0, _, _, _ => .error .fuelOut
  | f + 1, schema, openapi, pre =>
    match schema with
    | .null => .ok "any"
    | .bool b => .ok (if b then "any" else "never")
    | .obj fields =>
      match lookupJ fields "$ref" with
      | some refv =>
        (match refv with
         | .str r => .ok (pre ++ get_ref_name r)
         | _ => .error .attributeError)
      | none =>
      match lookupJ fields "allOf" with
      | some v => do
        let members ← pyIterVals v
        let ts ← members.mapM (fun m => openapi_type_to_tsF f m openapi pre)
        .ok (String.intercalate " & " ts)
      | none =>
      match lookupJ fields "oneOf" with
      | some v => do
        let members ← pyIterVals v
        let ts ← members.mapM (fun m => openapi_type_to_tsF f m openapi pre)
        .ok (String.intercalate " | " ts)
      | none =>
      match lookupJ fields "anyOf" with
      | some v => do
        let members ← pyIterVals v
        let acc ← members.foldlM
          (fun (acc : List String × Bool) m =>
            if isNullMember m then pure (acc.1, true)
            else do
              let t ← openapi_type_to_tsF f m openapi pre
              pure (acc.1 ++ [t], acc.2))
          ([], false)
        if acc.1.isEmpty then .ok (if acc.2 then "null" else "any")
        else .ok (String.intercalate " | " acc.1 ++ (if acc.2 then " | null" else ""))
      | none =>
        let st0 := lookupD fields "type" (.str "any")
        let pr :=
          match st0 with
          | .arr xs =>
            if xs.any (fun t => jEqStr t "null") then
              (true, (xs.filter (fun t => !jEqStr t "null")).headD (.str "any"))
            else (false, xs.headD (.str "any"))
          | t => (false, t)
        let is_nullable := pr.1
        let schema_type := pr.2
        let mn := fun (t : String) => if is_nullable then t ++ " | null" else t
        match lookupJ fields "enum" with
        | some ev => do
          let vs ← pyIterVals ev
          .ok (mn (String.intercalate " | " (vs.map (fun v => "\"" ++ pyStr v ++ "\""))))
        | none =>
          if jEqStr schema_type "string" then .ok (mn "string")
          else if jEqStr schema_type "integer" || jEqStr schema_type "number" then
            .ok (mn "number")
          else if jEqStr schema_type "boolean" then .ok (mn "boolean")
          else if jEqStr schema_type "array" then do
            let items := lookupD fields "items" (.obj [])
            let matched ←
              if isInlineObjectNode items then find_matching_schema items openapi
              else pure none
            match matched with
            | some nm => .ok (mn (pre ++ sanitize_name nm ++ "[]"))
            | none => do
              let it ← openapi_type_to_tsF f items openapi pre
              .ok (mn (it ++ "[]"))
          else if jEqStr schema_type "object" then
            let additional := lookupD fields "additionalProperties" .null
            if pyTruthy additional then do
              let vt ← openapi_type_to_tsF f additional openapi pre
              .ok (mn ("Record<string, " ++ vt ++ ">"))
            else if pyTruthy (lookupD fields "properties" .null) then do
              let matched ← find_matching_schema (.obj fields) openapi
              match matched with
              | some nm => .ok (mn (pre ++ sanitize_name nm))
              | none =>
                match lookupD fields "properties" (.obj []) with
                | .obj props => do
                  let reqSet ← pySet (lookupD fields "required" (.arr []))
                  let prop_types ← (sortStrings (props.map Prod.fst)).mapM (fun pn => do
                    let pt ← openapi_type_to_tsF f (lookupD props pn .null) openapi pre
                    pure (pn ++ (if PyKey.str pn ∈ reqSet then "" else "?") ++ ": " ++ pt))
                  if prop_types.isEmpty then .ok (mn "object")
                  else .ok (mn ("\x7b " ++ String.intercalate "; " prop_types ++ "; \x7d"))
                | _ => .error .attributeError
            else .ok (mn "object")
          else .ok (mn "any")
    | _ => .ok "any"

/-- parser.openapi_type_to_ts: convert an OpenAPI schema node to a TypeScript
type string (fuelled by the node size, which strictly bounds the recursion
depth of the Python original). -/
def openapi_type_to_ts (schema openapi : JValue) (pre : String) : Except PyErr String :=
  openapi_type_to_tsF (jsize schema) schema openapi pre

/-- Python `key in container`: key test for dicts, substring test for strings,
element test for lists; TypeError otherwise. -/
def pyContains (container : JValue) (key : String) : Except PyErr Bool :=
  match container with
  | .obj fs => .ok ((fs.map Prod.fst).contains key)
  | .str s => .ok (strContains s key)
  | .arr xs => .ok (xs.any (fun x => jEqStr x key))
  | _ => .error .typeError

/-- Python container[key] for a string key: dict indexing (KeyError when
absent); indexing anything else with a string raises TypeError. -/
def pyIndex (container : JValue) (key : String) : Except PyErr JValue :=
  match container with
  | .obj fs =>
    match lookupJ fs key with
    | some v => .ok v
    | none => .error .keyError
  | _ => .error .typeError

/-- Python dict item assignment d[k] = v on an association list: replace the
value in place when the key exists, append otherwise. -/
def setItem {α : Type} : List (String × α) → String → α → List (String × α)
  | [], key, v => [(key, v)]
  | (k, w) :: rest, key, v =>
    if k = key then (k, v) :: rest else (k, w) :: setItem rest key v

/-- Python dict.update(other) / {**a, **b} merging on association lists. -/
def pyDictUpdate {α : Type} (fs : List (String × α)) (es : List (String × α)) :
    List (String × α) :=
  es.foldl (fun acc p => setItem acc p.1 p.2) fs

/-- Python dict.update with JSON receivers: AttributeError when the receiver
is not a dict, TypeError when the argument is not a dict (the source only
updates with dict.get results). -/
def updProps (acc extra : JValue) : Except PyErr JValue :=
  match acc with
  | .obj fs =>
    match extra with
    | .obj es => .ok (.obj (pyDictUpdate fs es))
    | _ => .error .typeError
  | _ => .error .attributeError

/-- A stored string field: Python keeps the raw value and only fails when a
truthy non-string is rendered later; the model surfaces that TypeError at
parse time instead (falsy non-strings render like the empty string, so they
are kept as such). -/
def asStrLenient (v : JValue) : Except PyErr String :=
  match v with
  | .str s => .ok s
  | w => if pyTruthy w then .error .typeError else .ok ""

/-- The tags of an operation as strings: Python iterates the raw value when
grouping and fails on non-string tags only at rendering; the model surfaces
that TypeError here. -/
def asTagList (v : JValue) : Except PyErr (List String) := do
  let vs ← pyIterVals v
  vs.mapM (fun x =>
    match x with
    | .str s => Except.ok s
    | _ => Except.error PyErr.typeError)

/-- Python truthiness of an optional string (None and the empty string are
falsy). -/
def optStrTruthy : Option String → Bool
  | none => false
  | some s => s != ""

/-- Lines 595-597 of parser.parse_schema: append a null union member when the
property declares a truthy nullable and the type string does not already
contain "null". -/
def apply_nullable (nullable : JValue) (ts : String) : String :=
  if pyTruthy nullable && !strContains ts "null" then ts ++ " | null" else ts

/-- parser.build_constraints: human-readable constraint strings in the fixed
key order.  The original appends the raw format value and would only fail on
a non-string format when the comment is rendered; the model renders it with
str() here, which is identical for the string-valued formats documents use. -/
def build_constraints (prop_schema : JValue) : Except PyErr (List String) :=
  match prop_schema with
  | .obj fs =>
    let pick := fun (key : String) (mk : JValue → String) =>
      match lookupJ fs key with
      | some x => [mk x]
      | none => ([] : List String)
    .ok (pick "minLength" (fun x => "min length: " ++ pyStr x) ++
      pick "maxLength" (fun x => "max length: " ++ pyStr x) ++
      pick "minimum" (fun x => "min: " ++ pyStr x) ++
      pick "maximum" (fun x => "max: " ++ pyStr x) ++
      pick "pattern" (fun x => "pattern: " ++ pyStr x) ++
      pick "format" (fun x => pyStr x) ++
      pick "default" (fun x => "default: " ++ pyStr x))
  | _ => .error .typeError

/-- parser.parse_schema: merge properties/required (unioning in allOf members,
resolving reference members through the document), then build the property
list in sorted name order, translating each type, applying the OpenAPI 3.0
nullable marker and collecting constraints.  The Python dict.update mutates
the shared properties dict in place; the merge result is modelled
functionally and no claim depends on the aliasing. -/
def parse_schema (name : String) (schema_def openapi : JValue) (pre : String) :
    Except PyErr Schema :=
  match schema_def with
  | .obj sfields => do
    let reqSet0 ← pySet (lookupD sfields "required" (.arr []))
    let props0 := lookupD sfields "properties" (.obj [])
    let st ←
      match lookupJ sfields "allOf" with
      | some av => do
        let subs ← pyIterVals av
        subs.foldlM (fun (st : JValue × Finset PyKey) sub => do
          let hasRef ← pyContains sub "$ref"
          if hasRef then do
            let rr ← pyIndex sub "$ref"
            match rr with
            | .str rs => do
              let resolved ← resolve_ref openapi rs
              let pv ← pyGetM resolved "properties" (.obj [])
              let merged ← updProps st.1 pv
              let rv ← pyGetM resolved "required" (.arr [])
              let rset ← pySet rv
              pure (merged, st.2 ∪ rset)
            | _ => .error .attributeError
          else do
            let pv ← pyGetM sub "properties" (.obj [])
            let merged ← updProps st.1 pv
            let rv ← pyGetM sub "required" (.arr [])
            let rset ← pySet rv
            pure (merged, st.2 ∪ rset))
          (props0, reqSet0)
      | none => pure (props0, reqSet0)
    match st.1 with
    | .obj props => do
      let properties ← (sortStrings (props.map Prod.fst)).mapM (fun pn => do
        let ps := lookupD props pn .null
        let ts ← openapi_type_to_ts ps openapi pre
        let nullable ← pyGetM ps "nullable" (.bool false)
        let ts2 := apply_nullable nullable ts
        let constraints ← build_constraints ps
        let descV ← pyGetM ps "description" (.str "")
        let desc ← asStrLenient descV
        pure (SchemaProperty.mk pn ts2 (PyKey.str pn ∈ st.2) desc constraints))
      pure (Schema.mk name properties)
    | _ => .error .attributeError
  | _ => .error .attributeError

/-- parser.parse_schemas: parse every component schema in sorted name order
into a dict keyed by sanitized name (later writes overwrite, as Python dict
assignment does). -/
def parse_schemas (openapi : JValue) (pre : String) :
    Except PyErr (List (String × Schema)) := do
  let comp ← pyGetM openapi "components" (.obj [])
  let sdefsv ← pyGetM comp "schemas" (.obj [])
  match sdefsv with
  | .obj sdefs =>
    (sortStrings (sdefs.map Prod.fst)).foldlM (fun acc name => do
      let sd := lookupD sdefs name .null
      let s ← parse_schema (sanitize_name name) sd openapi pre
      pure (setItem acc (sanitize_name name) s)) []
  | _ => .error .attributeError

/-- parser.extract_inline_schema: register anonymous object (or
array-of-object) schemas under a synthesized name, skipping reference nodes,
component-matched shapes and names already present in the registry. -/
def extract_inline_schema (schema : JValue) (name_base : String) (openapi : JValue)
    (inline_schemas : List (String × Schema)) (pre : String) :
    Except PyErr (Option String × List (String × Schema)) :=
  match schema with
  | .obj fields =>
    if (lookupJ fields "$ref").isSome then .ok (none, inline_schemas)
    else if jEqStr (lookupD fields "type" .null) "array" then
      let items := lookupD fields "items" (.obj [])
      if isInlineObjectNode items then do
        let matched ← find_matching_schema items openapi
        match matched with
        | some _ => .ok (none, inline_schemas)
        | none =>
          let sanitized := sanitize_name (name_base ++ "Item")
          if (lookupJ inline_schemas sanitized).isSome then .ok (none, inline_schemas)
          else do
            let s ← parse_schema sanitized items openapi pre
            .ok (none, inline_schemas ++ [(sanitized, s)])
      else .ok (none, inline_schemas)
    else if jEqStr (lookupD fields "type" .null) "object" &&
        pyTruthy (lookupD fields "properties" .null) then do
      let matched ← find_matching_schema (.obj fields) openapi
      match matched with
      | some _ => .ok (none, inline_schemas)
      | none =>
        let sanitized := sanitize_name name_base
        if (lookupJ inline_schemas sanitized).isSome then .ok (some sanitized, inline_schemas)
        else do
          let s ← parse_schema sanitized (.obj fields) openapi pre
          .ok (some sanitized, inline_schemas ++ [(sanitized, s)])
    else .ok (none, inline_schemas)
  | _ => .ok (none, inline_schemas)

/-- One media-type step of the schema-selection loop in
parser.get_schema_from_content_with_inline: keep an already truthy schema
(the loop broke), otherwise take content[mt].get("schema", {}) when the media
type is present. -/
def contentMediaStep (content cur : JValue) (mt : String) : Except PyErr JValue :=
  if pyTruthy cur then pure cur
  else do
    let has ← pyContains content mt
    if has then do
      let cv ← pyIndex content mt
      pyGetM cv "schema" (.obj [])
    else pure cur

/-- next(iter(content.values()), default): the first value of a dict,
AttributeError for a non-dict receiver. -/
def firstValD (v d : JValue) : Except PyErr JValue :=
  match v with
  | .obj fs => .ok ((fs.map Prod.snd).headD d)
  | _ => .error .attributeError

/-- parser.get_schema_from_content_with_inline: select the content schema
(application/json, then */*, then the first content entry), extract an inline
schema if one applies and build the final type string. -/
def get_schema_from_content_with_inline (content : JValue) (name_base : String)
    (openapi : JValue) (reg : List (String × Schema)) (pre : String) :
    Except PyErr (Option String × List (String × Schema)) :=
  if !pyTruthy content then .ok (none, reg)
  else do
    let s1 ← contentMediaStep content .null "application/json"
    let s2 ← contentMediaStep content s1 "*/*"
    let schema ←
      if pyTruthy s2 then pure s2
      else do
        let fc ← firstValD content (.obj [])
        pyGetM fc "schema" (.obj [])
    if !pyTruthy schema then .ok (none, reg)
    else do
      let (schema_name, reg2) ← extract_inline_schema schema name_base openapi reg pre
      let nmOpt := match schema_name with
        | some nm => if nm = "" then none else some nm
        | none => none
      match nmOpt with
      | some nm => do
        let tv ← pyGetM schema "type" .null
        if jEqStr tv "array" then .ok (some (pre ++ nm ++ "[]"), reg2)
        else .ok (some (pre ++ nm), reg2)
      | none => do
        let ts ← openapi_type_to_ts schema openapi pre
        let tv ← pyGetM schema "type" .null
        if jEqStr tv "array" then do
          let items ← pyGetM schema "items" (.obj [])
          if isInlineObjectNode items then
            let sanitized := sanitize_name (name_base ++ "Item")
            if (lookupJ reg2 sanitized).isSome then .ok (some (pre ++ sanitized ++ "[]"), reg2)
            else .ok (some ts, reg2)
          else .ok (some ts, reg2)
        else .ok (some ts, reg2)

/-- parser.parse_parameters_to_schema: resolve parameter references, build a
synthetic object schema from the parameter schemas (annotating descriptions
with the parameter location), register it as {name_base}Params if absent and
return the prefixed type string. -/
def parse_parameters_to_schema (parameters : JValue) (name_base : String)
    (openapi : JValue) (inline_schemas : List (String × Schema)) (pre : String) :
    Except PyErr (Option String × List (String × Schema)) :=
  if !pyTruthy parameters then .ok (none, inline_schemas)
  else do
    let params ← pyIterVals parameters
    let resolved_params ← params.foldlM (fun (acc : List JValue) param => do
      let hasRef ← pyContains param "$ref"
      if hasRef then do
        let rr ← pyIndex param "$ref"
        match rr with
        | .str rs => do
          let resolved ← resolve_ref openapi rs
          if pyTruthy resolved then pure (acc ++ [resolved]) else pure acc
        | _ => Except.error PyErr.attributeError
      else pure (acc ++ [param])) []
    if resolved_params.isEmpty then .ok (none, inline_schemas)
    else do
      let st ← resolved_params.foldlM
        (fun (st : List (String × JValue) × List String) param => do
          let nameV ← pyGetM param "name" (.str "")
          if !pyTruthy nameV then pure st
          else
            match nameV with
            | .str param_name => do
              let inV ← pyGetM param "in" (.str "")
              let param_schema ← pyGetM param "schema" (.obj [])
              let requiredV ← pyGetM param "required" (.bool false)
              let descV ← pyGetM param "description" (.str "")
              let required2 := if pyTruthy requiredV then st.2 ++ [param_name] else st.2
              let location_suffix :=
                if pyTruthy inV then " (in: " ++ pyStr inV ++ ")" else ""
              let full_description ←
                if pyTruthy descV then
                  match descV with
                  | .str d => pure (d ++ location_suffix)
                  | _ => Except.error PyErr.typeError
                else pure (stripChars location_suffix ['(', ')', ' '])
              match param_schema with
              | .obj ps =>
                pure (setItem st.1 param_name
                  (.obj (pyDictUpdate ps [("description", .str full_description)])), required2)
              | _ => Except.error PyErr.typeError
            | _ => Except.error PyErr.typeError) ([], [])
      if st.1.isEmpty then .ok (none, inline_schemas)
      else do
        let params_schema : JValue := .obj
          [("type", .str "object"), ("properties", .obj st.1),
           ("required", .arr (st.2.map JValue.str))]
        let sanitized := sanitize_name (name_base ++ "Params")
        if (lookupJ inline_schemas sanitized).isSome then
          .ok (some (pre ++ sanitized), inline_schemas)
        else do
          let s ← parse_schema sanitized params_schema openapi pre
          .ok (some (pre ++ sanitized), inline_schemas ++ [(sanitized, s)])

/-- parser.parse_endpoints: walk the paths in sorted order and the methods in
the fixed order, building endpoints and the inline-schema registry.  The raw
operationId is stored through str() and summary/tags through the lenient
string view (see asStrLenient/asTagList). -/
def parse_endpoints (openapi : JValue) (pre : String) :
    Except PyErr (List Endpoint × List (String × Schema)) := do
  let pathsv ← pyGetM openapi "paths" (.obj [])
  match pathsv with
  | .obj pf =>
    (sortStrings (pf.map Prod.fst)).foldlM
      (fun (st : List Endpoint × List (String × Schema)) path => do
        let path_item := lookupD pf path .null
        ["get", "post", "put", "patch", "delete", "options", "head"].foldlM
          (fun (st : List Endpoint × List (String × Schema)) method => do
            let hasM ← pyContains path_item method
            if !hasM then pure st
            else do
              let operation ← pyIndex path_item method
              let opIdV ← pyGetM operation "operationId" (.str "")
              let opIdStr := match opIdV with
                | .str s => s
                | v => pyStr v
              let descV ← pyGetM operation "description" (.str "")
              let sumV ← pyGetM operation "summary" descV
              let summary ← asStrLenient sumV
              let tagsv ← pyGetM operation "tags" (.arr [.str "default"])
              let tags ← asTagList tagsv
              let hasRB ← pyContains operation "requestBody"
              let (request_body, reg1) ←
                if hasRB then do
                  let rbv ← pyIndex operation "requestBody"
                  let content ← pyGetM rbv "content" (.obj [])
                  let name_base :=
                    if pyTruthy opIdV then pyStr opIdV ++ "Request"
                    else method ++ charReplace path '/' "_" ++ "Request"
                  get_schema_from_content_with_inline content name_base openapi st.2 pre
                else pure (none, st.2)
              let responses ← pyGetM operation "responses" (.obj [])
              let nameBaseResp :=
                if pyTruthy opIdV then pyStr opIdV ++ "Response"
                else method ++ charReplace path '/' "_" ++ "Response"
              let (response, reg2) ← ["200", "201", "default"].foldlM
                (fun (rs : Option String × List (String × Schema)) sc => do
                  if optStrTruthy rs.1 then pure rs
                  else do
                    let has ← pyContains responses sc
                    if has then do
                      let cv ← pyIndex responses sc
                      let content ← pyGetM cv "content" (.obj [])
                      get_schema_from_content_with_inline content nameBaseResp openapi rs.2 pre
                    else pure rs) ((none : Option String), reg1)
              let hasP ← pyContains operation "parameters"
              let (parameters, reg3) ←
                if hasP then do
                  let pv ← pyIndex operation "parameters"
                  let name_base :=
                    if pyTruthy opIdV then pyStr opIdV
                    else method ++ charReplace path '/' "_"
                  parse_parameters_to_schema pv name_base openapi reg2 pre
                else pure (none, reg2)
              pure (st.1 ++ [Endpoint.mk (pyUpper method) path opIdStr summary tags
                request_body response parameters], reg3))
          st)
      (([] : List Endpoint), ([] : List (String × Schema)))
  | _ => .error .attributeError

/-- ts_generator.generate_property_comment: inline comment from description
and constraints, empty when there is neither. -/
def generate_property_comment (prop : SchemaProperty) : String :=
  let parts := (if prop.description ≠ "" then [prop.description] else []) ++
    (if !prop.constraints.isEmpty then
      ["(" ++ String.intercalate ", " prop.constraints ++ ")"] else [])
  if parts.isEmpty then "" else "  // " ++ String.intercalate " " parts

/-- ts_generator.generate_interface: render a schema as a TypeScript
interface, one property per line, optional marker when not required. -/
def generate_interface (schema : Schema) (pre : String) : String :=
  String.intercalate "\n"
    (["interface " ++ pre ++ schema.name ++ " \x7b"] ++
     schema.properties.map (fun prop =>
       "  " ++ prop.name ++ (if prop.required then "" else "?") ++ ": " ++
         prop.type_str ++ ";" ++ generate_property_comment prop) ++
     ["\x7d"])

/-- md_generator.generate_endpoints_table: Markdown table of the endpoints
carrying the tag, empty string when there are none. -/
def generate_endpoints_table (endpoints : List Endpoint) (tag : String) : String :=
  let tag_endpoints := endpoints.filter (fun e => e.tags.contains tag)
  if tag_endpoints.isEmpty then ""
  else
    String.intercalate "\n"
      (["| Method | Endpoint | Description | Request Body | Response |",
        "|--------|----------|-------------|--------------|----------|"] ++
       tag_endpoints.map (fun ep =>
         let request := if optStrTruthy ep.request_body then
           "`" ++ ep.request_body.getD "" ++ "`" else "-"
         let response := if optStrTruthy ep.response then
           "`" ++ ep.response.getD "" ++ "`" else "-"
         let summary := if ep.summary ≠ "" then
           charReplace (charReplace ep.summary '|' "\\|") '\n' " " else "-"
         "| " ++ ep.method ++ " | `" ++ ep.path ++ "` | " ++ summary ++ " | " ++
           request ++ " | " ++ response ++ " |"))

/-- md_generator.format_tag_name: hyphens/underscores to spaces, then title
case. -/
def format_tag_name (tag : String) : String :=
  pyTitle (charReplace (charReplace tag '-' " ") '_' " ")

/-- md_generator.tag_to_filename: lowercase with spaces/underscores replaced
by hyphens. -/
def tag_to_filename (tag : String) : String :=
  charReplace (charReplace (pyLower tag) ' ' "-") '_' "-"

/-- One character of the Pattern I([A-Za-z0-9_]+). -/
def identChar (c : Char) : Bool :=
  c.isAlpha || c.isDigit || c = '_'

/-- Scan of re.findall for the hardcoded pattern I([A-Za-z0-9_]+) used by
md_generator.extract_schema_names: non-overlapping left-to-right matches of
the literal character I followed by a maximal nonempty identifier run,
returning the captured runs.  The accumulator holds the reversed characters
of the current capture once an I has been seen. -/
def extractScan : List Char → Option (List Char) → List String
  | [], acc =>
    (match acc with
     | some rev => if rev.isEmpty then [] else [String.mk rev.reverse]
     | none => [])
  | c :: rest, some rev =>
    if identChar c then extractScan rest (some (c :: rev))
    else
      -- a non-identifier character cannot itself start a match, so the
      -- scanner may skip it after closing the current capture
      (if rev.isEmpty then [] else [String.mk rev.reverse]) ++ extractScan rest none
  | c :: rest, none =>
    if c = 'I' then extractScan rest (some []) else extractScan rest none

/-- md_generator.extract_schema_names: the set of names matched by the
hardcoded pattern I([A-Za-z0-9_]+) in a type string, empty for a falsy
argument; the Python set is modelled as a duplicate-free list in match
order. -/
def extract_schema_names (type_str : Option String) : List String :=
  match type_str with
  | none => []
  | some s => dedupAppend [] (extractScan s.data none)

/-- md_generator.get_nested_schema_names: union of the names extracted from
every property type string of a schema. -/
def get_nested_schema_names (schema : Schema) : List String :=
  schema.properties.foldl
    (fun acc p => dedupAppend acc (extract_schema_names (some p.type_str))) []

/-- A model of CPython set.pop order: any function choosing an element of the
frontier.  The internal order of a CPython string set depends on the
per-process hash seed, so every member is a possible pop result. -/
def validPick (pick : List String → Option String) : Prop :=
  ∀ l : List String, l ≠ [] → ∃ x, pick l = some x ∧ x ∈ l

/-- Pop model popping the head of the frontier list. -/
def pickHead (l : List String) : Option String :=
  l.head?

/-- Pop model popping the last element of the frontier list. -/
def pickLast (l : List String) : Option String :=
  l.getLast?

/-- Worklist loop of md_generator.get_related_schemas, fuelled; returns none
only on fuel exhaustion, which the wrapper bound rules out. -/
def grsLoop (pick : List String → Option String) (all : List (String × Schema)) :
    Nat → List String → Finset String → List (String × Schema) →
    Option (List (String × Schema))
  | 0, front, _, rel => if front.isEmpty then some rel else none
  | fuel + 1, front, processed, rel =>
    if front.isEmpty then some rel
    else
      match pick front with
      | none => none
      | some name =>
        let front1 := front.erase name
        if name ∈ processed then grsLoop pick all fuel front1 processed rel
        else
          let processed1 := insert name processed
          match lookupJ all name with
          | some schema =>
            grsLoop pick all fuel
              (dedupAppend front1
                ((get_nested_schema_names schema).filter (fun x => x ∉ processed1)))
              processed1 (setItem rel name schema)
          | none => grsLoop pick all fuel front1 processed1 rel

/-- All names the worklist can ever see: the seeds together with every name
nested in any schema of the lookup table. -/
def nestedAll (all : List (String × Schema)) : Finset String :=
  all.foldr (fun p acc => (get_nested_schema_names p.2).toFinset ∪ acc) ∅

/-- Seed set of md_generator.get_related_schemas: the names extracted from
the request/response type strings of the endpoints carrying the tag. -/
def grsSeeds (endpoints : List Endpoint) (tag : String) : List String :=
  (endpoints.filter (fun e => e.tags.contains tag)).foldl (fun acc ep =>
    dedupAppend (dedupAppend acc (extract_schema_names ep.request_body))
      (extract_schema_names ep.response)) []

/-- md_generator.get_related_schemas: transitive closure of the schema names
referenced from the request/response type strings of the endpoints carrying
the tag, restricted to the lookup table; parameterised by the set.pop
model. -/
def get_related_schemas (pick : List String → Option String)
    (endpoints : List Endpoint) (tag : String) (all_schemas : List (String × Schema)) :
    Option (List (String × Schema)) :=
  let seeds := grsSeeds endpoints tag
  let U := seeds.toFinset ∪ nestedAll all_schemas
  grsLoop pick all_schemas ((U.card + 1) * (U.card + 2)) seeds ∅ []

/-- Reachability over the schema lookup table: the names the resolver must
visit, namely the seeds and, transitively, every name nested in the
properties of a found schema. -/
inductive Reaches (all : List (String × Schema)) (seeds : List String) : String → Prop where
  | seed : ∀ {n : String}, n ∈ seeds → Reaches all seeds n
  | step : ∀ {n m : String} {s : Schema}, Reaches all seeds n → lookupJ all n = some s →
      m ∈ get_nested_schema_names s → Reaches all seeds m

/-- md_generator.generate_tag_markdown: heading, endpoint table and, when
related schemas exist, one interface block per schema in the order the
resolver discovered them. -/
def generate_tag_markdown (tag : String) (endpoints : List Endpoint)
    (schemas : List (String × Schema)) (pre : String) : String :=
  String.intercalate "\n"
    ((["# " ++ format_tag_name tag ++ " API", "", "---", "", "## API Endpoints", "",
       generate_endpoints_table endpoints tag, ""]) ++
     (if !schemas.isEmpty then
       ["---", "", "## TypeScript Interfaces", "", "```typescript"] ++
       schemas.flatMap (fun p => [generate_interface p.2 pre, ""]) ++ ["```"]
     else []))

/-- md_generator.generate_per_tag_markdown: group endpoints by tag, then per
tag in sorted order resolve related schemas and render the tag file, keyed by
the tag filename (later duplicate filenames overwrite, as the Python dict
does). -/
def generate_per_tag_markdown (pick : List String → Option String)
    (openapi : JValue) (endpoints : List Endpoint)
    (schemas : List (String × Schema)) (pre : String) :
    Option (List (String × String)) :=
  let _ := openapi
  let tagKeys := dedupAppend [] (endpoints.flatMap (fun ep => ep.tags))
  (sortStrings tagKeys).foldlM (fun acc tag => do
    let related ← get_related_schemas pick endpoints tag schemas
    pure (setItem acc (tag_to_filename tag ++ ".md")
      (generate_tag_markdown tag endpoints related pre))) []

/-- md_generator.generate_index_markdown: title/version/description from the
info object, a module table in sorted tag order and the totals footer. -/
def generate_index_markdown (openapi : JValue) (endpoints : List Endpoint) :
    Except PyErr String := do
  let info ← pyGetM openapi "info" (.obj [])
  let titleV ← pyGetM info "title" (.str "API Documentation")
  let descV ← pyGetM info "description" (.str "")
  let verV ← pyGetM info "version" (.str "")
  let tagPairs := endpoints.flatMap (fun ep => ep.tags.map (fun t => (t, ep)))
  let tagKeys := dedupAppend [] (tagPairs.map Prod.fst)
  let rows := (sortStrings tagKeys).map (fun tag =>
    "| " ++ format_tag_name tag ++ " | " ++
      toString (tagPairs.countP (fun p => p.1 = tag)) ++ " | [" ++
      (tag_to_filename tag ++ ".md") ++ "](./" ++ (tag_to_filename tag ++ ".md") ++ ") |")
  pure (String.intercalate "\n"
    (["# " ++ pyStr titleV, ""] ++
     (if pyTruthy verV then ["**Version:** " ++ pyStr verV, ""] else []) ++
     (if pyTruthy descV then [pyStr descV, ""] else []) ++
     ["---", "", "## API Documentation", "",
      "| Module | Endpoints | File |", "|--------|-----------|------|"] ++
     rows ++
     ["", "---", "",
      "*Total: " ++ toString endpoints.length ++ " endpoints across " ++
        toString tagKeys.length ++ " modules*"]))

/-- Lines 47-54 of main.main: parse endpoints and component schemas, then
merge them with {**schemas, **inline_schemas} (the inline side written
last). -/
def mergedSchemas (doc : JValue) (pre : String) :
    Except PyErr (List (String × Schema)) := do
  let ei ← parse_endpoints doc pre
  let schemas ← parse_schemas doc pre
  pure (pyDictUpdate schemas ei.2)

/-- The whole in-memory pipeline of main.main: parse, merge, render every tag
file and the index (the file writes themselves are outside the core). -/
def runPipeline (pick : List String → Option String) (doc : JValue) (pre : String) :
    Except PyErr (Option (List (String × String))) := do
  let ei ← parse_endpoints doc pre
  let schemas ← parse_schemas doc pre
  let all_schemas := pyDictUpdate schemas ei.2
  let index ← generate_index_markdown doc ei.1
  match generate_per_tag_markdown pick doc ei.1 all_schemas pre with
  | some files => pure (some (files ++ [("index.md", index)]))
  | none => pure none

/-! Concrete input documents and values used by the claim theorems. -/

/-- Document of the C10 scenario: /users GET returning an array of
referenced User, User with required integer id and optional string name. -/
def docC10 : JValue := .obj [
  ("paths", .obj [("/users", .obj [("get", .obj [("responses", .obj [("200", .obj [
    ("content", .obj [("application/json", .obj [("schema", .obj [
      ("type", .str "array"),
      ("items", .obj [("$ref", .str "#/components/schemas/User")])])])])])])])])]),
  ("components", .obj [("schemas", .obj [("User", .obj [
    ("type", .str "object"),
    ("properties", .obj [
      ("id", .obj [("type", .str "integer")]),
      ("name", .obj [("type", .str "string")])]),
    ("required", .arr [.str "id"])])])])]

/-- The endpoint the C10 document parses to. -/
def c10ep : Endpoint := Endpoint.mk "GET" "/users" "" "" ["default"] none (some "IUser[]") none

/-- The component schema the C10 document parses to. -/
def c10user : Schema := Schema.mk "User"
  [SchemaProperty.mk "id" "number" true "" [],
   SchemaProperty.mk "name" "string" false "" []]

/-- Document whose operation synthesizes an inline response schema named
getUsersResponse while a component schema of the same name exists with a
different shape (drives the C1 merge-direction counterexample). -/
def docC1 : JValue := .obj [
  ("paths", .obj [("/users", .obj [("get", .obj [
    ("operationId", .str "getUsers"),
    ("responses", .obj [("200", .obj [("content", .obj [("application/json", .obj [
      ("schema", .obj [("type", .str "object"),
        ("properties", .obj [("b", .obj [("type", .str "integer")])])])])])])])])])]),
  ("components", .obj [("schemas", .obj [("getUsersResponse", .obj [
    ("type", .str "object"),
    ("properties", .obj [("a", .obj [("type", .str "string")])])])])])]

/-- The component schema of docC1 (string property a). -/
def c1named : Schema := Schema.mk "getUsersResponse" [SchemaProperty.mk "a" "string" false "" []]

/-- The synthesized inline schema of docC1 (integer property b). -/
def c1inline : Schema := Schema.mk "getUsersResponse" [SchemaProperty.mk "b" "number" false "" []]

/-- Document whose single tag references two component schemas, so the
resolver frontier holds two names at once (drives the C2 pop-order
counterexample). -/
def docC2 : JValue := .obj [
  ("paths", .obj [("/things", .obj [("get", .obj [
    ("responses", .obj [("200", .obj [("content", .obj [("application/json", .obj [
      ("schema", .obj [("oneOf", .arr [
        .obj [("$ref", .str "#/components/schemas/Alpha")],
        .obj [("$ref", .str "#/components/schemas/Beta")]])])])])])])])])]),
  ("components", .obj [("schemas", .obj [
    ("Alpha", .obj [("type", .str "object"),
      ("properties", .obj [("a", .obj [("type", .str "string")])])]),
    ("Beta", .obj [("type", .str "object"),
      ("properties", .obj [("b", .obj [("type", .str "string")])])])])])]

/-- Endpoint whose response type string uses the configured non-default
prefix T (drives the C3 failing input). -/
def c3ep : Endpoint := Endpoint.mk "GET" "/u" "" "" ["default"] none (some "TUser") none

/-- Schema table for the C3 failing input. -/
def c3user : Schema := Schema.mk "User" [SchemaProperty.mk "id" "number" true "" []]

/-- Schema A of the C4 two-schema reference cycle (its property references B). -/
def c4sA : Schema := Schema.mk "A" [SchemaProperty.mk "b" "IB" false "" []]

/-- Schema B of the C4 cycle (its property references A back). -/
def c4sB : Schema := Schema.mk "B" [SchemaProperty.mk "a" "IA" false "" []]

/-- Endpoint carrying tag t whose response references A (seed of the C4
cycle traversal). -/
def c4ep : Endpoint := Endpoint.mk "GET" "/c" "" "" ["t"] none (some "IA") none

/-- The schema lookup table of the C4 cycle. -/
def c4all : List (String × Schema) := [("A", c4sA), ("B", c4sB)]

/-- Match condition of the Schema Matcher exactly as the claim states it:
both required sets nonempty and equal together with equal property sets, or
one required set empty and equal property sets. -/
def schemaMatchCond (P : Finset String) (R : Finset PyKey) (Ps : Finset String)
    (Rs : Finset PyKey) : Prop :=
  (R ≠ ∅ ∧ Rs ≠ ∅ ∧ R = Rs ∧ P = Ps) ∨ (¬(R ≠ ∅ ∧ Rs ≠ ∅) ∧ P = Ps)

instance (P : Finset String) (R : Finset PyKey) (Ps : Finset String)
    (Rs : Finset PyKey) : Decidable (schemaMatchCond P R Ps Rs) := by
  unfold schemaMatchCond
  infer_instance

/-- Boolean form of schemaMatchCond, used inside find? characterizations. -/
def schemaMatchCondB (P : Finset String) (R : Finset PyKey) (Ps : Finset String)
    (Rs : Finset PyKey) : Bool :=
  decide (schemaMatchCond P R Ps Rs)

/-- Shape of a well-formed component schema definition for the C5
characterization: a dict whose properties value (when present) is a dict and
whose required value (when present) is a list of hashable scalars. -/
def wfSchemaDef (d : JValue) : Bool :=
  match d with
  | .obj fs =>
    (match lookupJ fs "properties" with
     | none => true
     | some (.obj _) => true
     | some _ => false) &&
    (match lookupJ fs "required" with
     | none => true
     | some (.arr rs) => rs.all (fun r => (pyKeyScalar r).isSome)
     | some _ => false)
  | _ => false

/-- Property-name set of a schema definition (total view used under
wfSchemaDef). -/
def defProps (d : JValue) : Finset String :=
  match d with
  | .obj fs =>
    (match lookupD fs "properties" (.obj []) with
     | .obj ps => (ps.map Prod.fst).toFinset
     | _ => ∅)
  | _ => ∅

/-- Required set of a schema definition as a Python value set (total view
used under wfSchemaDef). -/
def defReq (d : JValue) : Finset PyKey :=
  match d with
  | .obj fs =>
    (match lookupD fs "required" (.arr []) with
     | .arr rs => (rs.filterMap pyKeyScalar).toFinset
     | _ => ∅)
  | _ => ∅

/-- Inline schema with an empty property set (C5 counterexample input). -/
def c5inline : JValue := .obj [("properties", .obj [])]

/-- Document holding one empty component schema A (C5 counterexample input). -/
def c5doc : JValue := .obj [("components", .obj [("schemas", .obj [("A", .obj [])])])]

/-- Inline schema with property x (C5 witness input). -/
def c5winline : JValue := .obj [("properties", .obj [("x", .null)])]

/-- Document with a single matching component B (C5 witness input). -/
def c5wdoc : JValue := .obj [("components", .obj [("schemas", .obj [("B", .obj
  [("properties", .obj [("x", .null)])])])])]

/-- Inline anonymous object schema for the C9 witness. -/
def c9schema : JValue := .obj [("type", .str "object"),
  ("properties", .obj [("x", .obj [("type", .str "string")])])]

/-- Pre-existing registry entry for the C9 witness. -/
def c9dummy : Schema := Schema.mk "Foo" []

/-- Registry already holding the name Foo for the C9 witness. -/
def c9reg : List (String × Schema) := [("Foo", c9dummy)]

/-- The anyOf node holding only a null member (C6 witness input). -/
def c6node : JValue := .obj [("anyOf", .arr [.obj [("type", .str "null")]])]

/-- The plain string schema node of C7. -/
def c7node : JValue := .obj [("type", .str "string")]

/-- Schema definition holding one string property marked nullable (C7 second
part). -/
def c7def : JValue := .obj [("properties", .obj [("p", .obj [
  ("type", .str "string"), ("nullable", .bool true)])])]

/-- Dict whose $ref value is not a string: translation raises AttributeError
on it (C8 counterexample input). -/
def c8refNode : JValue := .obj [("$ref", .num 5)]

/-- Plain-recursion monadic map over Except, used to state loop
characterizations (translate every element in order, stopping at the first
error). -/
def exMapM (f : JValue → Except PyErr String) : List JValue → Except PyErr (List String)
  | [] => .ok []
  | x :: xs => do
    let y ← f x
    let ys ← exMapM f xs
    .ok (y :: ys)

/-! Association-list lemmas shared by the claim proofs. -/

theorem lookupJ_append_some {α : Type} {l1 l2 : List (String × α)} {k : String} {v : α}
    (h : lookupJ l1 k = some v) : lookupJ (l1 ++ l2) k = some v := by
  induction l1 with
  | nil => simp [lookupJ] at h
  | cons p rest ih =>
    obtain ⟨a, w⟩ := p
    by_cases hk : a = k
    · simpa [lookupJ, hk] using h
    · simp [lookupJ, hk] at h ⊢
      exact ih h

theorem setItem_lookup {α : Type} (l : List (String × α)) (key : String) (v : α)
    (k : String) :
    lookupJ (setItem l key v) k = if key = k then some v else lookupJ l k := by
  induction l with
  | nil => by_cases hk : key = k <;> simp [setItem, lookupJ, hk]
  | cons p rest ih =>
    obtain ⟨a, w⟩ := p
    by_cases ha : a = key
    · subst ha
      by_cases hk : a = k <;> simp [setItem, lookupJ, hk]
    · by_cases hk : a = k
      · subst hk
        have hka : key ≠ a := fun h => ha h.symm
        simp [setItem, lookupJ, ha, hka]
      · simp [setItem, lookupJ, ha, hk, ih]

theorem pyDictUpdate_lookup {α : Type} (a b : List (String × α))
    (hnd : (b.map Prod.fst).Nodup) (k : String) :
    lookupJ (pyDictUpdate a b) k =
      if k ∈ b.map Prod.fst then lookupJ b k else lookupJ a k := by
  induction b generalizing a with
  | nil => simp [pyDictUpdate, lookupJ]
  | cons p rest ih =>
    obtain ⟨x, v⟩ := p
    obtain ⟨hx, hrest⟩ := by simpa using hnd
    have hstep : pyDictUpdate a ((x, v) :: rest) = pyDictUpdate (setItem a x v) rest := rfl
    rw [hstep, ih (setItem a x v) hrest]
    by_cases hk : k ∈ rest.map Prod.fst
    · have hxk : x ≠ k := by
        intro he
        subst he
        obtain ⟨⟨a2, b2⟩, hmem, hfst⟩ := List.mem_map.mp hk
        cases hfst
        exact hx b2 hmem
      simp [hk, lookupJ, hxk]
    · by_cases hxk : x = k
      · subst hxk
        simp [hk, lookupJ, setItem_lookup]
      · simp [hk, lookupJ, hxk, setItem_lookup, Ne.symm hxk]

theorem exbind_ok {ε α β : Type} (a : α) (f : α → Except ε β) :
    (Except.ok a >>= f) = f a := rfl

theorem exbind_error {ε α β : Type} (e : ε) (f : α → Except ε β) :
    ((Except.error e : Except ε α) >>= f) = Except.error e := rfl

theorem infixB_append_right (pat l1 l2 : List Char) (h : infixB pat l2 = true) :
    infixB pat (l1 ++ l2) = true := by
  induction l1 with
  | nil => simpa using h
  | cons c rest ih =>
    simp only [List.cons_append, infixB, Bool.or_eq_true]
    exact Or.inr ih

theorem expure {ε α : Type} (a : α) : (pure a : Except ε α) = Except.ok a := rfl

/-- The anyOf member loop of the translator equals translating the non-null
members in order and recording whether any member is the null type. -/
theorem anyofFold_char (f : Nat) (doc : JValue) (pre : String) :
    ∀ (members : List JValue) (acc : List String × Bool),
      members.foldlM
        (fun (acc : List String × Bool) m =>
          if isNullMember m then pure (acc.1, true)
          else do
            let t ← openapi_type_to_tsF f m doc pre
            pure (acc.1 ++ [t], acc.2))
        acc =
      (match exMapM (fun m => openapi_type_to_tsF f m doc pre)
          (members.filter (fun m => !isNullMember m)) with
       | .ok ts => .ok (acc.1 ++ ts, acc.2 || members.any isNullMember)
       | .error e => .error e) := by
  intro members
  induction members with
  | nil => intro acc; simp [exMapM, expure]
  | cons m ms ih =>
    intro acc
    simp only [expure] at ih ⊢
    by_cases hm : isNullMember m = true
    · rw [List.foldlM_cons]
      simp only [hm, ite_true, exbind_ok]
      rw [ih (acc.1, true)]
      simp [List.filter_cons, hm, List.any_cons]
    · simp only [Bool.not_eq_true] at hm
      cases ht : openapi_type_to_tsF f m doc pre with
      | error e =>
        rw [List.foldlM_cons]
        simp only [hm, Bool.false_eq_true, ite_false, ht, exbind_error]
        simp [List.filter_cons, hm, exMapM, ht, exbind_error, expure]
      | ok t =>
        rw [List.foldlM_cons]
        simp only [hm, Bool.false_eq_true, ite_false, ht, exbind_ok]
        rw [ih (acc.1 ++ [t], acc.2)]
        simp only [List.filter_cons, List.any_cons, hm, Bool.not_false, ite_true,
          exMapM, ht, exbind_ok, expure, Bool.false_or]
        cases hms : exMapM (fun m => openapi_type_to_tsF f m doc pre)
            (ms.filter (fun m => !isNullMember m)) with
        | error e => simp [hms, exbind_error]
        | ok ts => simp [hms, exbind_ok, hm, expure]

/-- extract_inline_schema never overwrites an existing registry entry: every
lookup that succeeded on the input registry succeeds with the same schema on
the output registry. -/
theorem eis_preserves_registry
    (schema : JValue) (name_base : String) (openapi : JValue)
    (reg : List (String × Schema)) (pre : String)
    (res : Option String) (reg2 : List (String × Schema))
    (h : extract_inline_schema schema name_base openapi reg pre = .ok (res, reg2))
    (n : String) (s : Schema) (hs : lookupJ reg n = some s) :
    lookupJ reg2 n = some s := by
  cases schema with
  | obj fields =>
    simp only [extract_inline_schema] at h
    split at h
    · simp only [Except.ok.injEq, Prod.mk.injEq] at h
      obtain ⟨-, rfl⟩ := h
      exact hs
    · split at h
      · split at h
        · cases hm : find_matching_schema (lookupD fields "items" (.obj [])) openapi with
          | error e => rw [hm, exbind_error] at h; exact Except.noConfusion h
          | ok m =>
            rw [hm, exbind_ok] at h
            split at h
            · simp only [Except.ok.injEq, Prod.mk.injEq] at h
              obtain ⟨-, rfl⟩ := h
              exact hs
            · split at h
              · simp only [Except.ok.injEq, Prod.mk.injEq] at h
                obtain ⟨-, rfl⟩ := h
                exact hs
              · cases hp : parse_schema (sanitize_name (name_base ++ "Item"))
                    (lookupD fields "items" (.obj [])) openapi pre with
                | error e => rw [hp, exbind_error] at h; exact Except.noConfusion h
                | ok sch =>
                  rw [hp, exbind_ok] at h
                  simp only [Except.ok.injEq, Prod.mk.injEq] at h
                  obtain ⟨-, rfl⟩ := h
                  exact lookupJ_append_some hs
        · simp only [Except.ok.injEq, Prod.mk.injEq] at h
          obtain ⟨-, rfl⟩ := h
          exact hs
      · split at h
        · cases hm : find_matching_schema (.obj fields) openapi with
          | error e => rw [hm, exbind_error] at h; exact Except.noConfusion h
          | ok m =>
            rw [hm, exbind_ok] at h
            split at h
            · simp only [Except.ok.injEq, Prod.mk.injEq] at h
              obtain ⟨-, rfl⟩ := h
              exact hs
            · split at h
              · simp only [Except.ok.injEq, Prod.mk.injEq] at h
                obtain ⟨-, rfl⟩ := h
                exact hs
              · cases hp : parse_schema (sanitize_name name_base) (.obj fields) openapi pre with
                | error e => rw [hp, exbind_error] at h; exact Except.noConfusion h
                | ok sch =>
                  rw [hp, exbind_ok] at h
                  simp only [Except.ok.injEq, Prod.mk.injEq] at h
                  obtain ⟨-, rfl⟩ := h
                  exact lookupJ_append_some hs
        · simp only [Except.ok.injEq, Prod.mk.injEq] at h
          obtain ⟨-, rfl⟩ := h
          exact hs
  | null =>
    simp only [extract_inline_schema, Except.ok.injEq, Prod.mk.injEq] at h
    obtain ⟨-, rfl⟩ := h
    exact hs
  | bool b =>
    simp only [extract_inline_schema, Except.ok.injEq, Prod.mk.injEq] at h
    obtain ⟨-, rfl⟩ := h
    exact hs
  | num m =>
    simp only [extract_inline_schema, Except.ok.injEq, Prod.mk.injEq] at h
    obtain ⟨-, rfl⟩ := h
    exact hs
  | str t =>
    simp only [extract_inline_schema, Except.ok.injEq, Prod.mk.injEq] at h
    obtain ⟨-, rfl⟩ := h
    exact hs
  | arr xs =>
    simp only [extract_inline_schema, Except.ok.injEq, Prod.mk.injEq] at h
    obtain ⟨-, rfl⟩ := h
    exact hs

/-- parse_parameters_to_schema never overwrites an existing registry entry. -/
theorem ppts_preserves_registry
    (parameters : JValue) (name_base : String) (openapi : JValue)
    (reg : List (String × Schema)) (pre : String)
    (res : Option String) (reg2 : List (String × Schema))
    (h : parse_parameters_to_schema parameters name_base openapi reg pre = .ok (res, reg2))
    (n : String) (s : Schema) (hs : lookupJ reg n = some s) :
    lookupJ reg2 n = some s := by
  simp only [parse_parameters_to_schema] at h
  split at h
  · simp only [Except.ok.injEq, Prod.mk.injEq] at h
    obtain ⟨-, rfl⟩ := h
    exact hs
  · cases hi : pyIterVals parameters with
    | error e => rw [hi, exbind_error] at h; simp at h
    | ok params =>
      rw [hi, exbind_ok] at h
      cases hf : params.foldlM (fun (acc : List JValue) param => do
          let hasRef ← pyContains param "$ref"
          if hasRef then do
            let rr ← pyIndex param "$ref"
            match rr with
            | .str rs => do
              let resolved ← resolve_ref openapi rs
              if pyTruthy resolved then pure (acc ++ [resolved]) else pure acc
            | _ => Except.error PyErr.attributeError
          else pure (acc ++ [param])) [] with
      | error e => rw [hf, exbind_error] at h; simp at h
      | ok resolved_params =>
        rw [hf, exbind_ok] at h
        split at h
        · simp only [Except.ok.injEq, Prod.mk.injEq] at h
          obtain ⟨-, rfl⟩ := h
          exact hs
        · cases hst : resolved_params.foldlM
              (fun (st : List (String × JValue) × List String) param => do
                let nameV ← pyGetM param "name" (.str "")
                if !pyTruthy nameV then pure st
                else
                  match nameV with
                  | .str param_name => do
                    let inV ← pyGetM param "in" (.str "")
                    let param_schema ← pyGetM param "schema" (.obj [])
                    let requiredV ← pyGetM param "required" (.bool false)
                    let descV ← pyGetM param "description" (.str "")
                    let required2 := if pyTruthy requiredV then st.2 ++ [param_name] else st.2
                    let location_suffix :=
                      if pyTruthy inV then " (in: " ++ pyStr inV ++ ")" else ""
                    let full_description ←
                      if pyTruthy descV then
                        match descV with
                        | .str d => pure (d ++ location_suffix)
                        | _ => Except.error PyErr.typeError
                      else pure (stripChars location_suffix ['(', ')', ' '])
                    match param_schema with
                    | .obj ps =>
                      pure (setItem st.1 param_name
                        (.obj (pyDictUpdate ps [("description", .str full_description)])),
                        required2)
                    | _ => Except.error PyErr.typeError
                  | _ => Except.error PyErr.typeError) ([], []) with
          | error e => rw [hst, exbind_error] at h; simp at h
          | ok st =>
            rw [hst, exbind_ok] at h
            split at h
            · simp only [Except.ok.injEq, Prod.mk.injEq] at h
              obtain ⟨-, rfl⟩ := h
              exact hs
            · split at h
              · simp only [Except.ok.injEq, Prod.mk.injEq] at h
                obtain ⟨-, rfl⟩ := h
                exact hs
              · cases hp : parse_schema (sanitize_name (name_base ++ "Params"))
                    (.obj [("type", .str "object"), ("properties", .obj st.1),
                      ("required", .arr (st.2.map JValue.str))]) openapi pre with
                | error e => rw [hp, exbind_error] at h; simp at h
                | ok sch =>
                  rw [hp, exbind_ok] at h
                  simp only [Except.ok.injEq, Prod.mk.injEq] at h
                  obtain ⟨-, rfl⟩ := h
                  exact lookupJ_append_some hs

/-- pyKeyOf succeeds exactly as pyKeyScalar prescribes on a scalar. -/
theorem pyKeyOf_of_scalar (r : JValue) (k : PyKey) (hk : pyKeyScalar r = some k) :
    pyKeyOf r = .ok k := by
  cases r <;> simp_all [pyKeyScalar, pyKeyOf]

/-- pySet on a list of hashable scalars collects exactly their keys. -/
theorem pySet_wf (rs : List JValue) (h : ∀ r ∈ rs, (pyKeyScalar r).isSome = true) :
    pySet (.arr rs) = .ok ((rs.filterMap pyKeyScalar).toFinset) := by
  induction rs with
  | nil => rfl
  | cons r rest ih =>
    obtain ⟨k, hk⟩ := Option.isSome_iff_exists.mp (h r (by simp))
    have hrest := ih (fun x hx => h x (by simp [hx]))
    simp only [pySet, pyIterVals, exbind_ok, expure] at hrest ⊢
    cases hm : rest.mapM pyKeyOf with
    | error e =>
      rw [hm, exbind_error] at hrest
      exact Except.noConfusion hrest
    | ok L =>
      rw [hm, exbind_ok] at hrest
      simp only [Except.ok.injEq] at hrest
      rw [List.mapM_cons, pyKeyOf_of_scalar r k hk]
      simp only [exbind_ok, hm, expure, List.filterMap_cons, hk]
      simp only [Except.ok.injEq, List.toFinset_cons, hrest]

/-- Regression for the set model: an inline schema with required=[1] against
a component with required=["a"] and the same property set does not match —
both required sets are nonempty and unequal, so the matcher scans past the
component and returns None, exactly as CPython set comparison does. -/
theorem fms_mixed_required_no_match :
    find_matching_schema
      (.obj [("properties", .obj [("x", .null)]), ("required", .arr [.num 1])])
      (.obj [("components", .obj [("schemas", .obj [("A", .obj
        [("properties", .obj [("x", .null)]), ("required", .arr [.str "a"])])])])]) =
      .ok none := by decide

/-- The per-name test of fmsLoop equals the claim-level match condition. -/
theorem matchCond_ite_equiv (P : Finset String) (R : Finset PyKey)
    (Ps : Finset String) (Rs : Finset PyKey) {β : Type} (a rest : β) :
    (if R ≠ ∅ ∧ Rs ≠ ∅ then (if R = Rs ∧ P = Ps then a else rest)
     else if P = Ps then a else rest) =
    (if schemaMatchCondB P R Ps Rs = true then a else rest) := by
  by_cases h1 : R = ∅ <;> by_cases h2 : Rs = ∅ <;> by_cases h3 : P = Ps <;>
    by_cases h4 : R = Rs <;>
    simp [schemaMatchCondB, schemaMatchCond, h1, h2, h3, h4]

/-- Shape facts provided by wfSchemaDef. -/
theorem wfSchemaDef_elim (d : JValue) (hw : wfSchemaDef d = true) :
    ∃ fs, d = JValue.obj fs ∧
      (∃ ps, lookupD fs "properties" (.obj []) = .obj ps ∧
        (ps.map Prod.fst).toFinset = defProps d) ∧
      (∃ rs, lookupD fs "required" (.arr []) = .arr rs ∧
        (∀ r ∈ rs, (pyKeyScalar r).isSome = true) ∧
        (rs.filterMap pyKeyScalar).toFinset = defReq d) := by
  cases d with
  | obj fs =>
    refine ⟨fs, rfl, ?_, ?_⟩
    · simp only [wfSchemaDef, Bool.and_eq_true] at hw
      obtain ⟨hp, -⟩ := hw
      cases hpv : lookupJ fs "properties" with
      | none => exact ⟨[], by simp [lookupD, hpv], by simp [defProps, lookupD, hpv]⟩
      | some v =>
        cases v with
        | obj ps => exact ⟨ps, by simp [lookupD, hpv], by simp [defProps, lookupD, hpv]⟩
        | null => rw [hpv] at hp; exact absurd hp (by simp)
        | bool b => rw [hpv] at hp; exact absurd hp (by simp)
        | num n => rw [hpv] at hp; exact absurd hp (by simp)
        | str s => rw [hpv] at hp; exact absurd hp (by simp)
        | arr xs => rw [hpv] at hp; exact absurd hp (by simp)
    · simp only [wfSchemaDef, Bool.and_eq_true] at hw
      obtain ⟨-, hr⟩ := hw
      cases hrv : lookupJ fs "required" with
      | none => exact ⟨[], by simp [lookupD, hrv], by simp, by simp [defReq, lookupD, hrv]⟩
      | some v =>
        cases v with
        | arr rs =>
          refine ⟨rs, by simp [lookupD, hrv], ?_, by simp [defReq, lookupD, hrv]⟩
          rw [hrv] at hr
          simp only [List.all_eq_true] at hr
          exact hr
        | null => rw [hrv] at hr; exact absurd hr (by simp)
        | bool b => rw [hrv] at hr; exact absurd hr (by simp)
        | num n => rw [hrv] at hr; exact absurd hr (by simp)
        | str s => rw [hrv] at hr; exact absurd hr (by simp)
        | obj ps => rw [hrv] at hr; exact absurd hr (by simp)
  | null => exact absurd hw (by simp [wfSchemaDef])
  | bool b => exact absurd hw (by simp [wfSchemaDef])
  | num n => exact absurd hw (by simp [wfSchemaDef])
  | str s => exact absurd hw (by simp [wfSchemaDef])
  | arr xs => exact absurd hw (by simp [wfSchemaDef])

/-- The matcher loop returns the first name of the list whose
property/required sets satisfy the claim-level condition. -/
theorem fmsLoop_char (sdefs : List (String × JValue)) (P : Finset String)
    (R : Finset PyKey) :
    ∀ names, (∀ nm ∈ names, wfSchemaDef (lookupD sdefs nm .null) = true) →
      fmsLoop sdefs P R names =
        .ok (names.find? (fun nm =>
          schemaMatchCondB P R (defProps (lookupD sdefs nm .null))
            (defReq (lookupD sdefs nm .null)))) := by
  intro names
  induction names with
  | nil => intro hwf; rfl
  | cons n rest ih =>
    intro hwf
    obtain ⟨fs, hd, ⟨ps, hps, hPs⟩, ⟨rs, hrs, hstrs, hRs⟩⟩ :=
      wfSchemaDef_elim _ (hwf n (by simp))
    have hrest := ih (fun nm hm => hwf nm (by simp [hm]))
    simp only [fmsLoop, hd]
    rw [show pyGetM (JValue.obj fs) "properties" (.obj []) =
      .ok (lookupD fs "properties" (.obj [])) from rfl]
    rw [hps, exbind_ok]
    rw [show objKeys (JValue.obj ps) = .ok (ps.map Prod.fst) from rfl, exbind_ok]
    rw [show pyGetM (JValue.obj fs) "required" (.arr []) =
      .ok (lookupD fs "required" (.arr [])) from rfl]
    rw [hrs, exbind_ok, pySet_wf rs hstrs, exbind_ok]
    rw [hPs, hRs]
    rw [matchCond_ite_equiv P R (defProps (lookupD sdefs n .null))
      (defReq (lookupD sdefs n .null)) (Except.ok (some n)) (fmsLoop sdefs P R rest)]
    by_cases hc : schemaMatchCondB P R (defProps (lookupD sdefs n .null))
        (defReq (lookupD sdefs n .null)) = true
    · simp [hc, List.find?_cons_of_pos, hc]
    · simp only [Bool.not_eq_true] at hc
      simp [hc, List.find?_cons_of_neg, hrest]

theorem lookupJ_mem {α : Type} : ∀ {l : List (String × α)} {k : String} {v : α},
    lookupJ l k = some v → (k, v) ∈ l := by
  intro l
  induction l with
  | nil => intro k v h; exact absurd h (by simp [lookupJ])
  | cons p rest ih =>
    intro k v h
    obtain ⟨a, w⟩ := p
    by_cases ha : a = k
    · subst ha
      rw [lookupJ, if_pos rfl] at h
      simp only [Option.some.injEq] at h
      simp [h]
    · simp only [lookupJ, ha, ite_false] at h
      simp [ih h]

theorem lookupJ_isSome_of_mem_keys {α : Type} : ∀ {l : List (String × α)} {k : String},
    k ∈ l.map Prod.fst → ∃ v, lookupJ l k = some v := by
  intro l
  induction l with
  | nil => intro k h; simp at h
  | cons p rest ih =>
    intro k h
    obtain ⟨a, w⟩ := p
    by_cases ha : a = k
    · exact ⟨w, by simp [lookupJ, ha]⟩
    · simp only [List.map_cons, List.mem_cons] at h
      rcases h with h | h
      · exact absurd h.symm ha
      · obtain ⟨v, hv⟩ := ih h
        exact ⟨v, by simp [lookupJ, ha, hv]⟩

theorem mem_sortStrings {a : String} {l : List String} :
    a ∈ sortStrings l ↔ a ∈ l :=
  (List.perm_insertionSort (fun x y => strLeB x y = true) l).mem_iff

theorem dedupAppend_mem : ∀ (b a : List String) (x : String),
    x ∈ dedupAppend a b ↔ x ∈ a ∨ x ∈ b := by
  intro b
  induction b with
  | nil => intro a x; simp [dedupAppend]
  | cons y rest ih =>
    intro a x
    have hstep : dedupAppend a (y :: rest) =
        dedupAppend (if y ∈ a then a else a ++ [y]) rest := rfl
    rw [hstep, ih]
    by_cases hy : y ∈ a
    · simp only [hy, ite_true, List.mem_cons]
      constructor
      · rintro (h | h)
        · exact Or.inl h
        · exact Or.inr (Or.inr h)
      · rintro (h | h | h)
        · exact Or.inl h
        · exact Or.inl (h ▸ hy)
        · exact Or.inr h
    · simp only [hy, ite_false, List.mem_append, List.mem_singleton, List.mem_cons]
      tauto

theorem dedupAppend_nodup : ∀ (b a : List String), a.Nodup → (dedupAppend a b).Nodup := by
  intro b
  induction b with
  | nil => intro a h; simpa [dedupAppend] using h
  | cons y rest ih =>
    intro a h
    have hstep : dedupAppend a (y :: rest) =
        dedupAppend (if y ∈ a then a else a ++ [y]) rest := rfl
    rw [hstep]
    by_cases hy : y ∈ a
    · simpa [hy] using ih a h
    · simp only [hy, ite_false]
      refine ih (a ++ [y]) ?_
      rw [List.nodup_append]
      refine ⟨h, List.nodup_singleton y, ?_⟩
      intro z hz
      simp only [List.mem_singleton]
      intro he
      exact hy (he ▸ hz)

theorem grsSeeds_nodup (endpoints : List Endpoint) (tag : String) :
    (grsSeeds endpoints tag).Nodup := by
  rw [grsSeeds]
  generalize (endpoints.filter (fun e => e.tags.contains tag)) = l
  have hgen : ∀ (l : List Endpoint) (acc : List String), acc.Nodup →
      (l.foldl (fun acc ep =>
        dedupAppend (dedupAppend acc (extract_schema_names ep.request_body))
          (extract_schema_names ep.response)) acc).Nodup := by
    intro l
    induction l with
    | nil => intro acc h; simpa using h
    | cons ep rest ih =>
      intro acc h
      exact ih _ (dedupAppend_nodup _ _ (dedupAppend_nodup _ _ h))
  exact hgen l [] List.nodup_nil

theorem nestedAll_closed : ∀ (all : List (String × Schema)) (n : String) (s : Schema),
    lookupJ all n = some s → ∀ m ∈ get_nested_schema_names s, m ∈ nestedAll all := by
  intro all n s hlk m hm
  have hmem : (n, s) ∈ all := lookupJ_mem hlk
  clear hlk
  induction all with
  | nil => simp at hmem
  | cons p rest ih =>
    rw [show nestedAll (p :: rest) =
      (get_nested_schema_names p.2).toFinset ∪ nestedAll rest from rfl]
    rcases List.mem_cons.mp hmem with h | h
    · subst h
      exact Finset.mem_union_left _ (List.mem_toFinset.mpr hm)
    · exact Finset.mem_union_right _ (ih h)

theorem nodup_length_le_card (l : List String) (V : Finset String)
    (hnd : l.Nodup) (hsub : ∀ x ∈ l, x ∈ V) : l.length ≤ V.card := by
  have h1 : l.toFinset.card = l.length := List.toFinset_card_of_nodup hnd
  have h2 : l.toFinset ⊆ V := fun x hx => hsub x (List.mem_toFinset.mp hx)
  calc l.length = l.toFinset.card := h1.symm
    _ ≤ V.card := Finset.card_le_card h2

/-- Termination of the resolver worklist: under any valid pop model the loop
finishes within the fuel bound, for every frontier inside the name
universe. -/
theorem grsLoop_total (pick : List String → Option String) (hv : validPick pick)
    (all : List (String × Schema)) (V : Finset String)
    (hcl : ∀ n s, lookupJ all n = some s → ∀ m ∈ get_nested_schema_names s, m ∈ V) :
    ∀ (fuel : Nat) (front : List String) (processed : Finset String)
      (rel : List (String × Schema)), front.Nodup → (∀ x ∈ front, x ∈ V) →
      (V \ processed).card * (V.card + 1) + front.length ≤ fuel →
      (grsLoop pick all fuel front processed rel).isSome := by
  intro fuel
  induction fuel with
  | zero =>
    intro front processed rel hnd hsub hb
    have hlen : front.length = 0 := by omega
    have hf : front = [] := List.length_eq_zero.mp hlen
    simp [grsLoop, hf]
  | succ f ih =>
    intro front processed rel hnd hsub hb
    by_cases hfe : front.isEmpty
    · simp [grsLoop, hfe]
    · have hne : front ≠ [] := by
        cases front
        · simp at hfe
        · simp
      obtain ⟨name, hpick, hmem⟩ := hv front hne
      have hlen1 : 1 ≤ front.length := by
        cases front
        · simp at hmem
        · simp
      rw [grsLoop]
      simp only [hfe, Bool.false_eq_true, ite_false, hpick]
      by_cases hproc : name ∈ processed
      · simp only [hproc, ite_true]
        apply ih _ _ rel (hnd.erase name) (fun x hx => hsub x (List.mem_of_mem_erase hx))
        have hle : (front.erase name).length = front.length - 1 :=
          List.length_erase_of_mem hmem
        rw [hle]
        omega
      · simp only [hproc, ite_false]
        have hsd : name ∈ V \ processed := Finset.mem_sdiff.mpr ⟨hsub name hmem, hproc⟩
        obtain ⟨c, hc⟩ : ∃ c, (V \ processed).card = c + 1 := by
          have := Finset.card_pos.mpr ⟨name, hsd⟩
          exact ⟨(V \ processed).card - 1, by omega⟩
        have hins : (V \ insert name processed).card = c := by
          rw [Finset.sdiff_insert, Finset.card_erase_of_mem hsd, hc]
          omega
        have hle : (front.erase name).length = front.length - 1 :=
          List.length_erase_of_mem hmem
        cases hlk : lookupJ all name with
        | some schema =>
          simp only [hlk]
          have hnd2 : (dedupAppend (front.erase name)
              ((get_nested_schema_names schema).filter
                (fun x => x ∉ insert name processed))).Nodup :=
            dedupAppend_nodup _ _ (hnd.erase name)
          have hsub2 : ∀ x ∈ dedupAppend (front.erase name)
              ((get_nested_schema_names schema).filter
                (fun x => x ∉ insert name processed)), x ∈ V := by
            intro x hx
            rcases (dedupAppend_mem _ _ x).mp hx with hx | hx
            · exact hsub x (List.mem_of_mem_erase hx)
            · exact hcl name schema hlk x (List.mem_of_mem_filter hx)
          apply ih _ _ _ hnd2 hsub2
          have hlen2 : (dedupAppend (front.erase name)
              ((get_nested_schema_names schema).filter
                (fun x => x ∉ insert name processed))).length ≤ V.card :=
            nodup_length_le_card _ V hnd2 hsub2
          rw [hins]
          rw [hc] at hb
          have hexp : (c + 1) * (V.card + 1) = c * (V.card + 1) + (V.card + 1) := by ring
          rw [hexp] at hb
          generalize hX : c * (V.card + 1) = X at *
          omega
        | none =>
          simp only [hlk]
          apply ih _ _ rel (hnd.erase name)
            (fun x hx => hsub x (List.mem_of_mem_erase hx))
          rw [hins, hle]
          rw [hc] at hb
          have hexp : (c + 1) * (V.card + 1) = c * (V.card + 1) + (V.card + 1) := by ring
          rw [hexp] at hb
          generalize hX : c * (V.card + 1) = X at *
          omega

theorem reaches_nil (all : List (String × Schema)) (n : String) :
    ¬ Reaches all [] n := by
  intro h
  induction h with
  | seed hx => simp at hx
  | step h1 hlk hm ih => exact ih

theorem reaches_mono {all : List (String × Schema)} {seeds1 seeds2 : List String}
    {n : String} (hs : ∀ x ∈ seeds1, x ∈ seeds2) (h : Reaches all seeds1 n) :
    Reaches all seeds2 n := by
  induction h with
  | seed hx => exact .seed (hs _ hx)
  | step h1 hlk hm ih => exact .step ih hlk hm

theorem reaches_skip (all : List (String × Schema)) (front : List String)
    (processed : Finset String) (name : String)
    (hA : ∀ n ∈ processed, ∀ s, lookupJ all n = some s →
      ∀ m ∈ get_nested_schema_names s, m ∈ processed ∨ m ∈ front)
    (hproc : name ∈ processed) (n : String) :
    (n ∈ processed ∨ Reaches all front n) ↔
      (n ∈ processed ∨ Reaches all (front.erase name) n) := by
  constructor
  · rintro (h | h)
    · exact Or.inl h
    · induction h with
      | seed hx =>
        rename_i x
        by_cases he : x = name
        · exact Or.inl (he ▸ hproc)
        · exact Or.inr (.seed ((List.mem_erase_of_ne he).mpr hx))
      | step h1 hlk hm ih =>
        rename_i k m s
        rcases ih with hk | hk
        · rcases hA _ hk _ hlk _ hm with hmem | hmem
          · exact Or.inl hmem
          · by_cases he : m = name
            · exact Or.inl (he ▸ hproc)
            · exact Or.inr (.seed ((List.mem_erase_of_ne he).mpr hmem))
        · exact Or.inr (.step hk hlk hm)
  · rintro (h | h)
    · exact Or.inl h
    · exact Or.inr (reaches_mono (fun x hx => List.mem_of_mem_erase hx) h)

theorem reaches_process_found (all : List (String × Schema)) (front : List String)
    (processed : Finset String) (name : String) (schema : Schema)
    (hA : ∀ n ∈ processed, ∀ s, lookupJ all n = some s →
      ∀ m ∈ get_nested_schema_names s, m ∈ processed ∨ m ∈ front)
    (hfr : name ∈ front) (hlk : lookupJ all name = some schema) (n : String) :
    (n ∈ processed ∨ Reaches all front n) ↔
      (n ∈ insert name processed ∨
        Reaches all (dedupAppend (front.erase name)
          ((get_nested_schema_names schema).filter
            (fun x => x ∉ insert name processed))) n) := by
  constructor
  · rintro (h | h)
    · exact Or.inl (Finset.mem_insert_of_mem h)
    · induction h with
      | seed hx =>
        rename_i x
        by_cases he : x = name
        · exact Or.inl (he ▸ Finset.mem_insert_self name processed)
        · exact Or.inr (.seed ((dedupAppend_mem _ _ x).mpr
            (Or.inl ((List.mem_erase_of_ne he).mpr hx))))
      | step h1 hlk2 hm ih =>
        rename_i k m s
        rcases ih with hk | hk
        · rcases Finset.mem_insert.mp hk with hk | hk
          · subst hk
            rw [hlk] at hlk2
            cases hlk2
            by_cases hmp : m ∈ insert k processed
            · exact Or.inl hmp
            · refine Or.inr (.seed ((dedupAppend_mem _ _ m).mpr (Or.inr ?_)))
              simp only [List.mem_filter, decide_eq_true_eq]
              exact ⟨hm, hmp⟩
          · rcases hA _ hk _ hlk2 _ hm with hmem | hmem
            · exact Or.inl (Finset.mem_insert_of_mem hmem)
            · by_cases he : m = name
              · exact Or.inl (he ▸ Finset.mem_insert_self name processed)
              · exact Or.inr (.seed ((dedupAppend_mem _ _ m).mpr
                  (Or.inl ((List.mem_erase_of_ne he).mpr hmem))))
        · exact Or.inr (.step hk hlk2 hm)
  · rintro (h | h)
    · rcases Finset.mem_insert.mp h with h | h
      · exact Or.inr (h ▸ Reaches.seed hfr)
      · exact Or.inl h
    · induction h with
      | seed hx =>
        rename_i x
        rcases (dedupAppend_mem _ _ x).mp hx with hx | hx
        · exact Or.inr (.seed (List.mem_of_mem_erase hx))
        · simp only [List.mem_filter, decide_eq_true_eq] at hx
          exact Or.inr (.step (.seed hfr) hlk hx.1)
      | step h1 hlk2 hm ih =>
        rename_i k m s
        rcases ih with hk | hk
        · rcases hA _ hk _ hlk2 _ hm with hmem | hmem
          · exact Or.inl hmem
          · exact Or.inr (.seed hmem)
        · exact Or.inr (.step hk hlk2 hm)

theorem reaches_process_none (all : List (String × Schema)) (front : List String)
    (processed : Finset String) (name : String)
    (hA : ∀ n ∈ processed, ∀ s, lookupJ all n = some s →
      ∀ m ∈ get_nested_schema_names s, m ∈ processed ∨ m ∈ front)
    (hfr : name ∈ front) (hlk : lookupJ all name = none) (n : String) :
    (n ∈ processed ∨ Reaches all front n) ↔
      (n ∈ insert name processed ∨ Reaches all (front.erase name) n) := by
  constructor
  · rintro (h | h)
    · exact Or.inl (Finset.mem_insert_of_mem h)
    · induction h with
      | seed hx =>
        rename_i x
        by_cases he : x = name
        · exact Or.inl (he ▸ Finset.mem_insert_self name processed)
        · exact Or.inr (.seed ((List.mem_erase_of_ne he).mpr hx))
      | step h1 hlk2 hm ih =>
        rename_i k m s
        rcases ih with hk | hk
        · rcases Finset.mem_insert.mp hk with hk | hk
          · subst hk
            rw [hlk] at hlk2
            exact Option.noConfusion hlk2
          · rcases hA _ hk _ hlk2 _ hm with hmem | hmem
            · exact Or.inl (Finset.mem_insert_of_mem hmem)
            · by_cases he : m = name
              · exact Or.inl (he ▸ Finset.mem_insert_self name processed)
              · exact Or.inr (.seed ((List.mem_erase_of_ne he).mpr hmem))
        · exact Or.inr (.step hk hlk2 hm)
  · rintro (h | h)
    · rcases Finset.mem_insert.mp h with h | h
      · exact Or.inr (h ▸ Reaches.seed hfr)
      · exact Or.inl h
    · induction h with
      | seed hx =>
        rename_i x
        exact Or.inr (.seed (List.mem_of_mem_erase hx))
      | step h1 hlk2 hm ih =>
        rename_i k m s
        rcases ih with hk | hk
        · rcases hA _ hk _ hlk2 _ hm with hmem | hmem
          · exact Or.inl hmem
          · exact Or.inr (.seed hmem)
        · exact Or.inr (.step hk hlk2 hm)

open Classical in
/-- Characterization of the resolver worklist: the final table looks up a
name in the schema table exactly when the name is already processed or
reachable from the frontier, independently of the pop order. -/
theorem grsLoop_char (pick : List String → Option String) (hv : validPick pick)
    (all : List (String × Schema)) :
    ∀ (fuel : Nat) (front : List String) (processed : Finset String)
      (rel rel2 : List (String × Schema)),
      (∀ n ∈ processed, ∀ s, lookupJ all n = some s →
        ∀ m ∈ get_nested_schema_names s, m ∈ processed ∨ m ∈ front) →
      (∀ n, lookupJ rel n = if n ∈ processed then lookupJ all n else none) →
      grsLoop pick all fuel front processed rel = some rel2 →
      ∀ n, lookupJ rel2 n =
        if n ∈ processed ∨ Reaches all front n then lookupJ all n else none := by
  intro fuel
  induction fuel with
  | zero =>
    intro front processed rel rel2 hA hB h n
    rw [grsLoop] at h
    split at h
    · rename_i hfe
      have hf : front = [] := by
        cases front
        · rfl
        · simp at hfe
      subst hf
      simp only [Option.some.injEq] at h
      subst h
      by_cases hn : n ∈ processed
      · rw [hB n, if_pos hn, if_pos (Or.inl hn)]
      · rw [hB n, if_neg hn, if_neg ?_]
        rintro (hc | hc)
        · exact hn hc
        · exact reaches_nil all n hc
    · exact Option.noConfusion h
  | succ f ih =>
    intro front processed rel rel2 hA hB h n
    rw [grsLoop] at h
    split at h
    · rename_i hfe
      have hf : front = [] := by
        cases front
        · rfl
        · simp at hfe
      subst hf
      simp only [Option.some.injEq] at h
      subst h
      by_cases hn : n ∈ processed
      · rw [hB n, if_pos hn, if_pos (Or.inl hn)]
      · rw [hB n, if_neg hn, if_neg ?_]
        rintro (hc | hc)
        · exact hn hc
        · exact reaches_nil all n hc
    · rename_i hfe
      have hne : front ≠ [] := by
        intro he
        subst he
        simp at hfe
      split at h
      · exact Option.noConfusion h
      · rename_i name hpick2
        have hmem : name ∈ front := by
          obtain ⟨x, hx, hxm⟩ := hv front hne
          rw [hpick2] at hx
          cases hx
          exact hxm
        simp only [] at h
        by_cases hproc : name ∈ processed
        · rw [if_pos hproc] at h
          have hA2 : ∀ n ∈ processed, ∀ s, lookupJ all n = some s →
              ∀ m ∈ get_nested_schema_names s, m ∈ processed ∨ m ∈ front.erase name := by
            intro k hk s hs m hm
            rcases hA k hk s hs m hm with hmem2 | hmem2
            · exact Or.inl hmem2
            · by_cases he : m = name
              · exact Or.inl (he ▸ hproc)
              · exact Or.inr ((List.mem_erase_of_ne he).mpr hmem2)
          rw [ih _ _ _ _ hA2 hB h n]
          exact if_congr (reaches_skip all front processed name hA hproc n).symm rfl rfl
        · rw [if_neg hproc] at h
          cases hlk : lookupJ all name with
          | some schema =>
            rw [hlk] at h
            have hA2 : ∀ k ∈ insert name processed, ∀ s, lookupJ all k = some s →
                ∀ m ∈ get_nested_schema_names s,
                  m ∈ insert name processed ∨
                    m ∈ dedupAppend (front.erase name)
                      ((get_nested_schema_names schema).filter
                        (fun x => x ∉ insert name processed)) := by
              intro k hk s hs m hm
              rcases Finset.mem_insert.mp hk with hk | hk
              · subst hk
                rw [hlk] at hs
                cases hs
                by_cases hmp : m ∈ insert k processed
                · exact Or.inl hmp
                · refine Or.inr ((dedupAppend_mem _ _ m).mpr (Or.inr ?_))
                  simp only [List.mem_filter, decide_eq_true_eq]
                  exact ⟨hm, hmp⟩
              · rcases hA k hk s hs m hm with hmem2 | hmem2
                · exact Or.inl (Finset.mem_insert_of_mem hmem2)
                · by_cases he : m = name
                  · exact Or.inl (he ▸ Finset.mem_insert_self name processed)
                  · exact Or.inr ((dedupAppend_mem _ _ m).mpr
                      (Or.inl ((List.mem_erase_of_ne he).mpr hmem2)))
            have hB2 : ∀ k, lookupJ (setItem rel name schema) k =
                if k ∈ insert name processed then lookupJ all k else none := by
              intro k
              rw [setItem_lookup]
              by_cases he : name = k
              · subst he
                rw [if_pos rfl, if_pos (Finset.mem_insert_self name processed), hlk]
              · rw [if_neg he, hB k]
                by_cases hk : k ∈ processed
                · rw [if_pos hk, if_pos (Finset.mem_insert_of_mem hk)]
                · rw [if_neg hk, if_neg ?_]
                  intro hc
                  rcases Finset.mem_insert.mp hc with hc | hc
                  · exact he hc.symm
                  · exact hk hc
            rw [ih _ _ _ _ hA2 hB2 h n]
            exact if_congr
              (reaches_process_found all front processed name schema hA hmem hlk n).symm rfl rfl
          | none =>
            rw [hlk] at h
            have hA2 : ∀ k ∈ insert name processed, ∀ s, lookupJ all k = some s →
                ∀ m ∈ get_nested_schema_names s,
                  m ∈ insert name processed ∨ m ∈ front.erase name := by
              intro k hk s hs m hm
              rcases Finset.mem_insert.mp hk with hk | hk
              · subst hk
                rw [hlk] at hs
                exact Option.noConfusion hs
              · rcases hA k hk s hs m hm with hmem2 | hmem2
                · exact Or.inl (Finset.mem_insert_of_mem hmem2)
                · by_cases he : m = name
                  · exact Or.inl (he ▸ Finset.mem_insert_self name processed)
                  · exact Or.inr ((List.mem_erase_of_ne he).mpr hmem2)
            have hB2 : ∀ k, lookupJ rel k =
                if k ∈ insert name processed then lookupJ all k else none := by
              intro k
              rw [hB k]
              by_cases hk : k ∈ processed
              · rw [if_pos hk, if_pos (Finset.mem_insert_of_mem hk)]
              · rw [if_neg hk]
                by_cases he : k = name
                · subst he
                  rw [if_pos (Finset.mem_insert_self k processed), hlk]
                · rw [if_neg ?_]
                  intro hc
                  rcases Finset.mem_insert.mp hc with hc | hc
                  · exact he hc
                  · exact hk hc
            rw [ih _ _ _ _ hA2 hB2 h n]
            exact if_congr
              (reaches_process_none all front processed name hA hmem hlk n).symm rfl rfl

/-- Termination of get_related_schemas for every input under every valid pop
model. -/
theorem grs_total_all (pick : List String → Option String) (hv : validPick pick) :
    ∀ (endpoints : List Endpoint) (tag : String) (all : List (String × Schema)),
      (get_related_schemas pick endpoints tag all).isSome := by
  intro endpoints tag all
  have hcl : ∀ n s, lookupJ all n = some s →
      ∀ m ∈ get_nested_schema_names s,
        m ∈ (grsSeeds endpoints tag).toFinset ∪ nestedAll all := by
    intro n s hlk m hm
    exact Finset.mem_union_right _ (nestedAll_closed all n s hlk m hm)
  have hnd := grsSeeds_nodup endpoints tag
  have hsub : ∀ x ∈ grsSeeds endpoints tag,
      x ∈ (grsSeeds endpoints tag).toFinset ∪ nestedAll all := by
    intro x hx
    exact Finset.mem_union_left _ (List.mem_toFinset.mpr hx)
  have hlen : (grsSeeds endpoints tag).length ≤
      ((grsSeeds endpoints tag).toFinset ∪ nestedAll all).card :=
    nodup_length_le_card _ _ hnd hsub
  have hbound :
      (((grsSeeds endpoints tag).toFinset ∪ nestedAll all) \ ∅).card *
        (((grsSeeds endpoints tag).toFinset ∪ nestedAll all).card + 1) +
        (grsSeeds endpoints tag).length ≤
      (((grsSeeds endpoints tag).toFinset ∪ nestedAll all).card + 1) *
        (((grsSeeds endpoints tag).toFinset ∪ nestedAll all).card + 2) := by
    rw [Finset.sdiff_empty]
    generalize hu : ((grsSeeds endpoints tag).toFinset ∪ nestedAll all).card = u
    rw [hu] at hlen
    have hexp : (u + 1) * (u + 2) = u * (u + 1) + 2 * u + 2 := by ring
    rw [hexp]
    generalize u * (u + 1) = X
    omega
  exact grsLoop_total pick hv all _ hcl _ _ ∅ [] hnd hsub hbound

open Classical in
/-- Pop-order independent characterization of get_related_schemas: the
returned table looks up exactly the names reachable from the tag seeds. -/
theorem grs_char (pick : List String → Option String) (hv : validPick pick)
    (endpoints : List Endpoint) (tag : String) (all rel : List (String × Schema))
    (h : get_related_schemas pick endpoints tag all = some rel) :
    ∀ n, lookupJ rel n =
      if Reaches all (grsSeeds endpoints tag) n then lookupJ all n else none := by
  have hA : ∀ n ∈ (∅ : Finset String), ∀ s, lookupJ all n = some s →
      ∀ m ∈ get_nested_schema_names s, m ∈ (∅ : Finset String) ∨
        m ∈ grsSeeds endpoints tag := by
    intro n hn
    exact absurd hn (Finset.not_mem_empty n)
  have hB : ∀ n, lookupJ ([] : List (String × Schema)) n =
      if n ∈ (∅ : Finset String) then lookupJ all n else none := by
    intro n
    simp [lookupJ]
  intro n
  rw [grsLoop_char pick hv all _ _ _ _ _ hA hB h n]
  refine if_congr ?_ rfl rfl
  constructor
  · rintro (hc | hc)
    · exact absurd hc (Finset.not_mem_empty n)
    · exact hc
  · exact Or.inr

/-! Claim theorems. -/

theorem validPick_pickHead : validPick pickHead := by
  intro l hl
  cases l with
  | nil => exact absurd rfl hl
  | cons x rest => exact ⟨x, rfl, by simp⟩

theorem validPick_pickLast : validPick pickLast := by
  intro l hl
  cases l with
  | nil => exact absurd rfl hl
  | cons x rest =>
    refine ⟨(x :: rest).getLast (by simp), ?_, List.getLast_mem (by simp)⟩
    rw [pickLast, List.getLast?_eq_getLast]

/-- C4: the dependency resolver terminates on every finite schema mapping
under every valid pop order, and on the two-schema cycle where A references
B, B references A back and A is seeded from the tagged endpoint, the result
is exactly the mapping holding A and B. -/
theorem c4_cycle_terminates (pick : List String → Option String) (hv : validPick pick) :
    (∀ (endpoints : List Endpoint) (tag : String) (all : List (String × Schema)),
      (get_related_schemas pick endpoints tag all).isSome) ∧
    (∃ rel, get_related_schemas pick [c4ep] "t" c4all = some rel ∧
      ∀ n, lookupJ rel n = lookupJ c4all n) := by
  refine ⟨grs_total_all pick hv, ?_⟩
  obtain ⟨rel, hrel⟩ := Option.isSome_iff_exists.mp (grs_total_all pick hv [c4ep] "t" c4all)
  refine ⟨rel, hrel, ?_⟩
  have hchar := grs_char pick hv [c4ep] "t" c4all rel hrel
  have hseeds : grsSeeds [c4ep] "t" = ["A"] := by decide
  have hclosed : ∀ m, Reaches c4all (grsSeeds [c4ep] "t") m → m = "A" ∨ m = "B" := by
    intro m hm
    induction hm with
    | seed hx =>
      rename_i x
      rw [hseeds] at hx
      simp only [List.mem_singleton] at hx
      exact Or.inl hx
    | step h1 hlk hmem ih =>
      rename_i k m2 s
      rcases ih with hk | hk
      · subst hk
        rw [show lookupJ c4all "A" = some c4sA from rfl] at hlk
        cases hlk
        rw [show get_nested_schema_names c4sA = ["B"] from by decide] at hmem
        simp only [List.mem_singleton] at hmem
        exact Or.inr hmem
      · subst hk
        rw [show lookupJ c4all "B" = some c4sB from rfl] at hlk
        cases hlk
        rw [show get_nested_schema_names c4sB = ["A"] from by decide] at hmem
        simp only [List.mem_singleton] at hmem
        exact Or.inl hmem
  intro n
  rw [hchar n]
  by_cases hA : n = "A"
  · subst hA
    rw [if_pos (Reaches.seed (by rw [hseeds]; simp))]
  · by_cases hB : n = "B"
    · subst hB
      have hr : Reaches c4all (grsSeeds [c4ep] "t") "B" :=
        Reaches.step (Reaches.seed (by rw [hseeds]; simp))
          (show lookupJ c4all "A" = some c4sA from rfl)
          (by rw [show get_nested_schema_names c4sA = ["B"] from by decide]; simp)
      rw [if_pos hr]
    · have hnone : lookupJ c4all n = none := by
        rw [show c4all = [("A", c4sA), ("B", c4sB)] from rfl]
        rw [lookupJ, if_neg (fun h => hA h.symm), lookupJ, if_neg (fun h => hB h.symm), lookupJ]
      have hnr : ¬ Reaches c4all (grsSeeds [c4ep] "t") n := by
        intro hr
        rcases hclosed n hr with h | h
        · exact hA h
        · exact hB h
      rw [if_neg hnr, hnone]

/-- Witness for c4_cycle_terminates under the head-popping model. -/
theorem c4_cycle_terminates_witness :
    (get_related_schemas pickHead [c4ep] "t" c4all).isSome ∧
    (∃ rel, get_related_schemas pickHead [c4ep] "t" c4all = some rel ∧
      ∀ n, lookupJ rel n = lookupJ c4all n) :=
  ⟨(c4_cycle_terminates pickHead validPick_pickHead).1 [c4ep] "t" c4all,
   (c4_cycle_terminates pickHead validPick_pickHead).2⟩

/-- C2 counterexample: running the whole pipeline on docC2 under two pop
orders that CPython realizes with different hash seeds (the frontier holds
the two names Alpha and Beta at once) produces different bytes — the
interfaces of the tag file appear in a different order — so byte-identical
output across separate processes is not guaranteed. -/
theorem c2_pipeline_counterexample :
    runPipeline pickHead docC2 "I" ≠ runPipeline pickLast docC2 "I" := by decide

/-- C2 amended: the pipeline is deterministic up to the set.pop order — for
any two valid pop models the resolver returns tables that agree as mappings
on every name (same schemas selected with the same definitions), so a fixed
hash seed reproduces identical bytes, and only the rendering order of the
interfaces within a tag file can differ across processes. -/
theorem c2_pop_order_amended (p1 p2 : List String → Option String)
    (h1 : validPick p1) (h2 : validPick p2) (endpoints : List Endpoint)
    (tag : String) (all : List (String × Schema)) :
    ∃ r1 r2, get_related_schemas p1 endpoints tag all = some r1 ∧
      get_related_schemas p2 endpoints tag all = some r2 ∧
      ∀ n, lookupJ r1 n = lookupJ r2 n := by
  obtain ⟨r1, hr1⟩ := Option.isSome_iff_exists.mp (grs_total_all p1 h1 endpoints tag all)
  obtain ⟨r2, hr2⟩ := Option.isSome_iff_exists.mp (grs_total_all p2 h2 endpoints tag all)
  refine ⟨r1, r2, hr1, hr2, fun n => ?_⟩
  rw [grs_char p1 h1 endpoints tag all r1 hr1 n, grs_char p2 h2 endpoints tag all r2 hr2 n]

/-- Witness for c2_pop_order_amended at the concrete cycle input under the
head- and last-popping models. -/
theorem c2_pop_order_amended_witness :
    ∃ r1 r2, get_related_schemas pickHead [c4ep] "t" c4all = some r1 ∧
      get_related_schemas pickLast [c4ep] "t" c4all = some r2 ∧
      ∀ n, lookupJ r1 n = lookupJ r2 n :=
  c2_pop_order_amended pickHead pickLast validPick_pickHead validPick_pickLast
    [c4ep] "t" c4all

/-- C1 counterexample: in docC1 the component schema and the synthesized
inline schema share the sanitized name getUsersResponse, and the merged
lookup table used for rendering maps that name to the inline schema, not to
the component schema — the {**schemas, **inline_schemas} merge lets the
inline side win, contradicting the claim that named schemas take
precedence. -/
theorem c1_merge_counterexample :
    parse_schemas docC1 "I" = .ok [("getUsersResponse", c1named)] ∧
    (parse_endpoints docC1 "I").map Prod.snd = .ok [("getUsersResponse", c1inline)] ∧
    mergedSchemas docC1 "I" = .ok [("getUsersResponse", c1inline)] ∧
    c1inline ≠ c1named := by decide

/-- C1 amended: the merge `{**schemas, **inline_schemas}` of main.py is
inline-wins — for every key of the (duplicate-free) inline registry the
merged table looks up the inline schema, and only keys absent from the
registry fall back to the named/component side. -/
theorem c1_inline_overwrites_named (named inline : List (String × Schema))
    (hnd : (inline.map Prod.fst).Nodup) (k : String) :
    lookupJ (pyDictUpdate named inline) k =
      if k ∈ inline.map Prod.fst then lookupJ inline k else lookupJ named k :=
  pyDictUpdate_lookup named inline hnd k

/-- Witness for c1_inline_overwrites_named at the merge of docC1. -/
theorem c1_inline_overwrites_named_witness :
    lookupJ (pyDictUpdate [("getUsersResponse", c1named)] [("getUsersResponse", c1inline)])
      "getUsersResponse" = some c1inline := by
  rw [c1_inline_overwrites_named [("getUsersResponse", c1named)]
    [("getUsersResponse", c1inline)] (by decide) "getUsersResponse"]
  decide

/-- C3: the dependency resolver matches the literal character I regardless of
the configured prefix — with prefix T the response type string TUser yields
no extracted names and the resolver returns no related schemas, while the
same shape with the default prefix does find User.  The claim (and the spec)
require the configured prefix to be matched, so this is a code bug. -/
theorem c3_hardcoded_prefix_eval :
    extract_schema_names (some "TUser") = [] ∧
    extract_schema_names (some "IUser") = ["User"] ∧
    get_related_schemas pickHead [c3ep] "default" [("User", c3user)] = some [] := by decide

/-- C5 amended: find_matching_schema of a dict argument with a well-formed
document returns None when the inline property set is empty, and otherwise
the first component name in sorted order whose property/required sets
satisfy the claimed condition (both required sets nonempty and equal with
equal property sets, or one required set empty with equal property sets).
Required sets are Python sets of hashable values (booleans identified with
0/1, as CPython does), so the comparison is faithful also for non-string
required members.  The result depends only on the property/required sets, so
structurally identical anonymous schemas always select the same named
schema. -/
theorem c5_matcher_amended
    (ifields : List (String × JValue)) (openapi comp : JValue)
    (iprops : List (String × JValue)) (sdefs : List (String × JValue)) (R : Finset PyKey)
    (hp : lookupD ifields "properties" (.obj []) = .obj iprops)
    (hR : pySet (lookupD ifields "required" (.arr [])) = .ok R)
    (hcomp : pyGetM openapi "components" (.obj []) = .ok comp)
    (hsch : pyGetM comp "schemas" (.obj []) = .ok (.obj sdefs))
    (hwf : ∀ p ∈ sdefs, wfSchemaDef p.2 = true) :
    find_matching_schema (.obj ifields) openapi =
      .ok (if (iprops.map Prod.fst).toFinset = ∅ then none
           else (sortStrings (sdefs.map Prod.fst)).find? (fun nm =>
             schemaMatchCondB (iprops.map Prod.fst).toFinset R
               (defProps (lookupD sdefs nm .null)) (defReq (lookupD sdefs nm .null)))) := by
  simp only [find_matching_schema]
  rw [hp]
  rw [show objKeys (JValue.obj iprops) = .ok (iprops.map Prod.fst) from rfl, exbind_ok]
  rw [hR, exbind_ok]
  by_cases he : (iprops.map Prod.fst).toFinset = ∅
  · simp [he]
  · simp only [he, ite_false, if_neg]
    rw [hcomp, exbind_ok, hsch, exbind_ok]
    have hwf2 : ∀ nm ∈ sortStrings (sdefs.map Prod.fst),
        wfSchemaDef (lookupD sdefs nm .null) = true := by
      intro nm hnm
      obtain ⟨v, hv⟩ := lookupJ_isSome_of_mem_keys (mem_sortStrings.mp hnm)
      rw [lookupD, hv]
      exact hwf (nm, v) (lookupJ_mem hv)
    exact fmsLoop_char sdefs (iprops.map Prod.fst).toFinset R
      (sortStrings (sdefs.map Prod.fst)) hwf2

/-- C5 counterexample: with an empty inline property set and an empty
component schema, the claimed match condition holds (one required set is
empty and the property sets agree), yet find_matching_schema returns None —
the claim misses the empty-property guard of the source. -/
theorem c5_matcher_counterexample :
    schemaMatchCond ∅ ∅ ∅ ∅ ∧ find_matching_schema c5inline c5doc = .ok none := by
  constructor
  · exact Or.inr ⟨by simp, rfl⟩
  · rfl

/-- Witness for c5_matcher_amended: a one-property inline schema selects the
matching component B. -/
theorem c5_matcher_amended_witness :
    find_matching_schema c5winline c5wdoc = .ok (some "B") := by
  have h := c5_matcher_amended [("properties", .obj [("x", .null)])] c5wdoc
    (.obj [("schemas", .obj [("B", .obj [("properties", .obj [("x", .null)])])])])
    [("x", .null)] [("B", .obj [("properties", .obj [("x", .null)])])] ∅
    rfl (by decide) rfl rfl (by decide)
  rw [show find_matching_schema c5winline c5wdoc =
    find_matching_schema (.obj [("properties", .obj [("x", .null)])]) c5wdoc from rfl, h]
  decide

/-- C6: an anyOf composite translates to the union of the translated
non-null members, with a null member appended when any member is the
explicit null type; when every member is the null type the result is exactly
the null type, and an anyOf with no members at all falls back to the top
type.  Stated for every fuel step, matching the fuelled embedding of the
recursive translator. -/
theorem c6_anyof_union (f : Nat) (members : List JValue) (doc : JValue) (pre : String)
    (ts : List String)
    (hm : exMapM (fun m => openapi_type_to_tsF f m doc pre)
        (members.filter (fun m => !isNullMember m)) = .ok ts) :
    openapi_type_to_tsF (f + 1) (.obj [("anyOf", .arr members)]) doc pre =
      .ok (if ts.isEmpty then (if members.any isNullMember then "null" else "any")
           else String.intercalate " | " ts ++
             (if members.any isNullMember then " | null" else "")) := by
  simp only [openapi_type_to_tsF, lookupJ, pyIterVals, exbind_ok, expure,
    String.reduceEq, reduceIte]
  have hc := anyofFold_char f doc pre members ([], false)
  simp only [expure] at hc
  rw [hc, hm, exbind_ok]
  simp only [List.nil_append, Bool.false_or, List.isEmpty_iff]
  split <;> rfl

/-- Witness for c6_anyof_union: an anyOf holding only a null member
translates to exactly the null type, through the openapi_type_to_ts
wrapper. -/
theorem c6_anyof_union_witness :
    openapi_type_to_ts c6node (JValue.obj []) "I" = .ok "null" := by
  have h := c6_anyof_union 3 [.obj [("type", .str "null")]] (JValue.obj []) "I" [] (by decide)
  have hw : openapi_type_to_ts c6node (JValue.obj []) "I" =
      openapi_type_to_tsF (3 + 1) (.obj [("anyOf", .arr [.obj [("type", .str "null")]])])
        (JValue.obj []) "I" := rfl
  rw [hw, h]
  decide

/-- C7: a schema node with type string and no modifiers translates to the
string type; a property carrying the same node with nullable true renders
the nullable union string type, and the nullable marking of
parser.parse_schema is idempotent — applying it twice appends no duplicate
null member. -/
theorem c7_string_nullable :
    (∀ (fields : List (String × JValue)) (doc : JValue) (pre : String),
      lookupJ fields "$ref" = none → lookupJ fields "allOf" = none →
      lookupJ fields "oneOf" = none → lookupJ fields "anyOf" = none →
      lookupJ fields "type" = some (.str "string") → lookupJ fields "enum" = none →
      openapi_type_to_ts (.obj fields) doc pre = .ok "string") ∧
    parse_schema "S" c7def (JValue.obj []) "I" =
      .ok (Schema.mk "S" [SchemaProperty.mk "p" "string | null" false "" []]) ∧
    (∀ t : String, apply_nullable (.bool true) (apply_nullable (.bool true) t) =
      apply_nullable (.bool true) t) := by
  refine ⟨?_, by decide, ?_⟩
  · intro fields doc pre h1 h2 h3 h4 h5 h6
    rw [openapi_type_to_ts]
    obtain ⟨k, hk⟩ : ∃ k, jsize (JValue.obj fields) = k + 1 :=
      ⟨jsizeP fields, by simp [jsize, Nat.add_comm]⟩
    rw [hk]
    simp [openapi_type_to_tsF, h1, h2, h3, h4, h5, h6, lookupD, jEqStr]
  · intro t
    by_cases hc : strContains t "null" = true
    · simp [apply_nullable, hc]
    · simp only [apply_nullable, pyTruthy, Bool.true_and, hc, Bool.not_false, ite_true]
      have : strContains (t ++ " | null") "null" = true := by
        have hd : (t ++ " | null").data = t.data ++ (" | null").data := by
          simp
        rw [strContains, hd]
        exact infixB_append_right _ _ _ (by decide)
      simp [this]

/-- Witness for c7_string_nullable at the concrete string node. -/
theorem c7_string_nullable_witness :
    openapi_type_to_ts c7node (JValue.obj []) "I" = .ok "string" ∧
    apply_nullable (.bool true) (apply_nullable (.bool true) "string") =
      apply_nullable (.bool true) "string" :=
  ⟨c7_string_nullable.1 [("type", .str "string")] (JValue.obj []) "I"
      rfl rfl rfl rfl rfl rfl,
   c7_string_nullable.2.2 "string"⟩

/-- C8 counterexample: translation is not total on arbitrary dicts — a $ref
holding a non-string raises AttributeError (ref.split on an int), so the
claim that openapi_type_to_ts never raises on any JSON-valued node fails. -/
theorem c8_ref_int_counterexample :
    openapi_type_to_ts c8refNode (JValue.obj []) "I" = .error .attributeError := by decide

/-- C8 amended: translation is total on None, booleans and every non-dict
value, and on dicts it degrades to the top type whenever none of the
recognized forms (reference, allOf/oneOf/anyOf, enum, known base types)
applies; it can raise only on dicts whose recognized keys hold ill-typed
values, such as a non-string $ref. -/
theorem c8_degrades_amended :
    (∀ (doc : JValue) (pre : String), openapi_type_to_ts .null doc pre = .ok "any") ∧
    (∀ (b : Bool) (doc : JValue) (pre : String),
      openapi_type_to_ts (.bool b) doc pre = .ok (if b then "any" else "never")) ∧
    (∀ (n : Int) (doc : JValue) (pre : String),
      openapi_type_to_ts (.num n) doc pre = .ok "any") ∧
    (∀ (s : String) (doc : JValue) (pre : String),
      openapi_type_to_ts (.str s) doc pre = .ok "any") ∧
    (∀ (xs : List JValue) (doc : JValue) (pre : String),
      openapi_type_to_ts (.arr xs) doc pre = .ok "any") ∧
    (∀ (fields : List (String × JValue)) (doc : JValue) (pre : String),
      lookupJ fields "$ref" = none → lookupJ fields "allOf" = none →
      lookupJ fields "oneOf" = none → lookupJ fields "anyOf" = none →
      lookupJ fields "enum" = none →
      (lookupJ fields "type" = none ∨
        ∃ t, lookupJ fields "type" = some (.str t) ∧
          t ∉ ["string", "integer", "number", "boolean", "array", "object"]) →
      openapi_type_to_ts (.obj fields) doc pre = .ok "any") := by
  refine ⟨fun doc pre => rfl, fun b doc pre => by cases b <;> rfl,
    fun n doc pre => rfl, fun s doc pre => rfl, ?_, ?_⟩
  · intro xs doc pre
    rw [openapi_type_to_ts]
    obtain ⟨k, hk⟩ : ∃ k, jsize (JValue.arr xs) = k + 1 :=
      ⟨jsizeL xs, by simp [jsize, Nat.add_comm]⟩
    rw [hk]
    rfl
  · intro fields doc pre h1 h2 h3 h4 h6 ht
    rw [openapi_type_to_ts]
    obtain ⟨k, hk⟩ : ∃ k, jsize (JValue.obj fields) = k + 1 :=
      ⟨jsizeP fields, by simp [jsize, Nat.add_comm]⟩
    rw [hk]
    rcases ht with ht | ⟨t, ht, hmem⟩
    · simp [openapi_type_to_tsF, h1, h2, h3, h4, h6, ht, lookupD, jEqStr]
    · simp only [List.mem_cons, List.mem_singleton, not_or] at hmem
      obtain ⟨n1, n2, n3, n4, n5, n6, -⟩ := hmem
      simp [openapi_type_to_tsF, h1, h2, h3, h4, h6, ht, lookupD, jEqStr,
        n1, n2, n3, n4, n5, n6]

/-- Witness for c8_degrades_amended: a dict whose type is an unknown string
and carries none of the recognized keys translates to the top type. -/
theorem c8_degrades_amended_witness :
    openapi_type_to_ts (.obj [("type", .str "frobnicate")]) (JValue.obj []) "I" = .ok "any" :=
  c8_degrades_amended.2.2.2.2.2 [("type", .str "frobnicate")] (JValue.obj []) "I"
    rfl rfl rfl rfl rfl
    (Or.inr ⟨"frobnicate", rfl, by decide⟩)

/-- C9: the inline-schema registry is first-writer-wins — neither
extract_inline_schema nor parse_parameters_to_schema ever changes an existing
registry entry, so a synthesized name whose sanitized form is already a key
keeps mapping to the same Schema for the entire run. -/
theorem c9_registry_first_writer_wins :
    (∀ (schema : JValue) (name_base : String) (openapi : JValue)
      (reg : List (String × Schema)) (pre : String) (res : Option String)
      (reg2 : List (String × Schema)),
      extract_inline_schema schema name_base openapi reg pre = .ok (res, reg2) →
      ∀ (n : String) (s : Schema), lookupJ reg n = some s → lookupJ reg2 n = some s) ∧
    (∀ (parameters : JValue) (name_base : String) (openapi : JValue)
      (reg : List (String × Schema)) (pre : String) (res : Option String)
      (reg2 : List (String × Schema)),
      parse_parameters_to_schema parameters name_base openapi reg pre = .ok (res, reg2) →
      ∀ (n : String) (s : Schema), lookupJ reg n = some s → lookupJ reg2 n = some s) :=
  ⟨fun schema name_base openapi reg pre res reg2 h n s hs =>
      eis_preserves_registry schema name_base openapi reg pre res reg2 h n s hs,
   fun parameters name_base openapi reg pre res reg2 h n s hs =>
      ppts_preserves_registry parameters name_base openapi reg pre res reg2 h n s hs⟩

/-- Witness for c9_registry_first_writer_wins: the registry already holding
Foo is returned unchanged by a call that synthesizes the same name, and the
existing entry still looks up. -/
theorem c9_registry_first_writer_wins_witness :
    extract_inline_schema c9schema "Foo" (JValue.obj []) c9reg "I" = .ok (some "Foo", c9reg) ∧
    lookupJ c9reg "Foo" = some c9dummy := by
  have h1 : extract_inline_schema c9schema "Foo" (JValue.obj []) c9reg "I" =
      .ok (some "Foo", c9reg) := by decide
  exact ⟨h1, c9_registry_first_writer_wins.1 c9schema "Foo" (JValue.obj []) c9reg "I"
    (some "Foo") c9reg h1 "Foo" c9dummy (by decide)⟩

/-- C10: the /users scenario end to end — the parsed endpoint carries
response type string IUser[], the component schema renders id required and
name optional, the default tag table holds the claimed row, and the full
pipeline emits exactly the default.md content containing that table and
interface IUser. -/
theorem c10_users_scenario :
    parse_endpoints docC10 "I" = .ok ([c10ep], []) ∧
    c10ep.response = some "IUser[]" ∧
    parse_schemas docC10 "I" = .ok [("User", c10user)] ∧
    generate_endpoints_table [c10ep] "default" =
      "| Method | Endpoint | Description | Request Body | Response |\n" ++
      "|--------|----------|-------------|--------------|----------|\n" ++
      "| GET | `/users` | - | - | `IUser[]` |" ∧
    generate_interface c10user "I" =
      "interface IUser \x7b\n  id: number;\n  name?: string;\n\x7d" ∧
    runPipeline pickHead docC10 "I" = .ok (some [
      ("default.md",
        "# Default API\n\n---\n\n## API Endpoints\n\n" ++
        "| Method | Endpoint | Description | Request Body | Response |\n" ++
        "|--------|----------|-------------|--------------|----------|\n" ++
        "| GET | `/users` | - | - | `IUser[]` |" ++
        "\n\n---\n\n## TypeScript Interfaces\n\n```typescript\n" ++
        "interface IUser \x7b\n  id: number;\n  name?: string;\n\x7d" ++
        "\n\n```"),
      ("index.md",
        "# API Documentation\n\n---\n\n## API Documentation\n\n" ++
        "| Module | Endpoints | File |\n|--------|-----------|------|\n" ++
        "| Default | 1 | [default.md](./default.md) |" ++
        "\n\n---\n\n*Total: 1 endpoints across 1 modules*")]) := by decide

end SwaggerScanner
